import Mathlib

/-!
Verification development for the MetasysAlarmViewer alarm aggregation & triage
engine.  The definitions below are a shallow embedding of the TypeScript source
(`src/alarms/Alarms.tsx` and `src/lib/api.ts`): pure functions are translated
directly, the reactive/stateful parts (the poll cycle `fetchData`, the
`useEffect` over `rows`, `sendComment`, the `localStorage` accessors) become
explicit state-passing functions over a `Store` record, and the browser
runtime's non-pure services (network fetch outcomes, `Date.now()`,
`Date` parsing, locale date formatting) are passed in as explicit parameters.
-/

namespace AlarmViewer

/-- `type AlarmStatus = "nao_tratado" | "tratado" | "concluido" | "oportunidade"` -/
inductive AlarmStatus where
  | nao_tratado
  | tratado
  | concluido
  | oportunidade
deriving DecidableEq, Repr

/-- The `"Sim" | "Não"` string union used for the `reconhecido` / `descartado`
row fields. -/
inductive SimNao where
  | sim
  | nao
deriving DecidableEq, Repr

/-- Reason tag on a status-log entry: `"user" | "auto_new_alarm"`. -/
inductive StatusReason where
  | user
  | auto_new_alarm
deriving DecidableEq, Repr

/-- `type CommentEntry = { ts: number; text: string }` -/
structure CommentEntry where
  ts : Nat
  text : String
deriving DecidableEq, Repr

/-- `type StatusEntry = { ts: number; status: AlarmStatus; reason?: "user" | "auto_new_alarm" }` -/
structure StatusEntry where
  ts : Nat
  status : AlarmStatus
  reason : Option StatusReason
deriving DecidableEq, Repr

/-- The canonical occurrence record (`type Row` in the source).  `reconhecido`
and `descartado` keep the source's two-valued string type as `SimNao`;
`dateTimeAdjMs` is the offset-adjusted timestamp in milliseconds. -/
structure Row where
  id : String
  server : String
  dateTimeISO : String
  dateTime : String
  dateTimeAdjMs : Int
  site : String
  point : String
  value : String
  priority : Int
  reconhecido : SimNao
  descartado : SimNao
  message : String
deriving DecidableEq, Repr

/-- `type BackendCfg` (source descriptor).  Fields not consumed by the modelled
logic (display link, derived backend URL) are kept as plain data. -/
structure BackendCfg where
  id : String
  label : String
  baseUrl : String
  pageSize : Option Nat
  username : String
  password : String
  enabled : Bool
  offset : Option Int
  offsetSign : Option SimNao
  offsetHours : Option Int
deriving DecidableEq, Repr

/-- `triggerValue?: { value?: string; units?: string }` from `AlarmDTO`. -/
structure TriggerValue where
  value : Option String
  units : Option String
deriving DecidableEq, Repr

/-- `type AlarmDTO` from `src/lib/api.ts`.  `priority : Option Int` models the
JS number together with the `Number.isFinite` test (`none` = not finite);
`message` models the untyped `(a as any).message` access. -/
structure AlarmDTO where
  id : String
  itemReference : String
  name : String
  creationTime : String
  isAcknowledged : Bool
  isDiscarded : Bool
  priority : Option Int
  triggerValue : Option TriggerValue
  message : Option String
deriving DecidableEq, Repr

/-- `const groupKey = (o) => `${o.server}::${o.site}::${o.point}`` -/
def groupKey (server site point : String) : String :=
  server ++ "::" ++ site ++ "::" ++ point

/-- `groupKey` applied to a `Row`. -/
def rowKey (r : Row) : String := groupKey r.server r.site r.point

/-- JS `String.prototype.trim()`: drop whitespace from both ends.  (Modelled
directly on the character list so that it is kernel-executable.) -/
def jsTrim (s : String) : String :=
  String.mk (((s.data.dropWhile Char.isWhitespace).reverse.dropWhile
    Char.isWhitespace).reverse)

/-- `const shouldPersist = (status, comment) => (comment && comment.trim().length > 0) || relevantes.has(status)`
where `relevantes = {"tratado", "concluido", "oportunidade"}`.  The JS `comment &&`
guard makes the empty string short-circuit to the set test. -/
def shouldPersist (status : AlarmStatus) (comment : String) : Bool :=
  (comment ≠ "" && (jsTrim comment).length > 0)
    || (status = .tratado || status = .concluido || status = .oportunidade)

/-! ### Value / unit normalization (`src/lib/api.ts`) -/

/-- The `direct` lookup table inside `normalizeValue`. -/
def directValueMap (s : String) : Option String :=
  if s = "controllerStatusEnumSet.csOffline" then some "Offline"
  else if s = "controllerStatusEnumSet.csOnline" then some "Online"
  else if s = "batteryConditionEnumSet.bcBatteryService" then some "BatteryService"
  else if s = "normalAlarmEnumSet.naAlarm" then some "Alarm"
  else if s = "localremoteEnumSet.1" then some "LR - 1"
  else if s = "localremoteEnumSet.0" then some "LR - 0"
  else if s = "offAutoEnumSet.0" then some "Estado - 0"
  else if s = "offAutoEnumSet.1" then some "Estado - 1"
  else if s = "unitEnumSet.noUnits" then some ""
  else if s = "normalAlarm2EnumSet.na2Alarm" then some "Alarm"
  else if s = "normalAlarm2EnumSet.na2Normal" then some "Normal"
  else if s = "unitEnumSet.kilopascals" then some "kPa"
  else if s = "unitEnumSet.kilowatts" then some "kW"
  else if s = "unitEnumSet.jaKilogramsPerSqCm" then some "kg/m²"
  else if s = "unitEnumSet.millimetersPerSecond" then some "mm/s."
  else none

/-- The `offonEnumSet.` prefixed branch of `normalizeValue`: reads the part
after the first dot and maps codes `"0"` / `"1"`. -/
def offonBranch (s : String) : String :=
  let code := (s.splitOn ".").getD 1 ""
  if code = "0" then "Estado 0"
  else if code = "1" then "Estado 1"
  else s

/-- `export function normalizeValue(v: unknown): string`.  `none` models the
JS `null`/`undefined` input.  Note the JS `if (direct[s]) return direct[s]`
is a *truthiness* test, so a mapped empty string falls through. -/
def normalizeValue (v : Option String) : String :=
  match v with
  | none => "-"
  | some raw =>
    let s := jsTrim raw
    match directValueMap s with
    | some t =>
      if t ≠ "" then t
      else if s.startsWith "offonEnumSet." then offonBranch s else s
    | none =>
      if s.startsWith "offonEnumSet." then offonBranch s else s

/-- The lookup table inside `mapUnit`. -/
def unitMap (s : String) : Option String :=
  if s = "unitEnumSet.noUnits" then some ""
  else if s = "unitEnumSet.degC" then some "°C"
  else if s = "unitEnumSet.percent" then some "%"
  else if s = "unitEnumSet.milligrams" then some "mg"
  else if s = "unitEnumSet.perMinute" then some "perMinute"
  else if s = "unitEnumSet.degF" then some "°F"
  else if s = "percent" then some "%"
  else if s = "milligrams" then some "milligrams"
  else if s = "perMinute" then some "perMinute"
  else if s = "localremoteEnumSet.0" then some "LR - 0"
  else if s = "localremoteEnumSet.1" then some "LR - 1"
  else if s = "normalAlarm2EnumSet.na2Alarm" then some "Alarm"
  else if s = "normalAlarm2EnumSet.na2Normal" then some "Normal"
  else if s = "unitEnumSet.kilopascals" then some "kPa"
  else if s = "unitEnumSet.kilowatts" then some "kW"
  else if s = "unitEnumSet.jaKilogramsPerSqCm" then some "kg/m²"
  else if s = "unitEnumSet.millimetersPerSecond" then some "mm/s."
  else none

/-- `export function mapUnit(u?: string)`: `map[u] ?? u`, `undefined` in gives
`undefined` out. -/
def mapUnit (u : Option String) : Option String :=
  match u with
  | none => none
  | some s => some ((unitMap s).getD s)

/-! ### Local persisted store (`localStorage` keys and typed accessors)

The source keeps three families of `localStorage` records per lineage key.
`Store` models their *successfully decoded* contents as total maps; the raw
fail-safe accessor layer (exceptions, JSON parse failures) is modelled
separately further below for the safety claim. -/

/-- `const COMMENT_LIST_KEY = (gk) => `alarm_comment_list_${gk}`` -/
def COMMENT_LIST_KEY (gk : String) : String := "alarm_comment_list_" ++ gk

/-- `const STATUS_KEY = (gk) => `alarm_status_${gk}`` -/
def STATUS_KEY (gk : String) : String := "alarm_status_" ++ gk

/-- `const STATUS_LOG_KEY = (gk) => `alarm_status_log_${gk}`` -/
def STATUS_LOG_KEY (gk : String) : String := "alarm_status_log_" ++ gk

/-- The decoded local store: per-lineage status, comment log and status log.
An absent status key is `none` (the accessors default it). -/
structure Store where
  statusMap : String → Option AlarmStatus
  commentMap : String → List CommentEntry
  statusLogMap : String → List StatusEntry

/-- `loadStatus`: stored value or the `"nao_tratado"` default. -/
def Store.loadStatus (st : Store) (gk : String) : AlarmStatus :=
  (st.statusMap gk).getD .nao_tratado

/-- `saveStatus` (successful write). -/
def Store.saveStatus (st : Store) (gk : String) (s : AlarmStatus) : Store :=
  { st with statusMap := fun k => if k = gk then some s else st.statusMap k }

/-- `loadCommentList` (successful read/parse). -/
def Store.loadCommentList (st : Store) (gk : String) : List CommentEntry :=
  st.commentMap gk

/-- `saveCommentList` (successful write). -/
def Store.saveCommentList (st : Store) (gk : String) (l : List CommentEntry) : Store :=
  { st with commentMap := fun k => if k = gk then l else st.commentMap k }

/-- `loadStatusLog` (successful read/parse). -/
def Store.loadStatusLog (st : Store) (gk : String) : List StatusEntry :=
  st.statusLogMap gk

/-- `saveStatusLog` (successful write). -/
def Store.saveStatusLog (st : Store) (gk : String) (l : List StatusEntry) : Store :=
  { st with statusLogMap := fun k => if k = gk then l else st.statusLogMap k }

/-! ### History merger (`rebuildUnified`, `statusToText`) -/

/-- The merged-view entry kind: `kind: "comment" | "status"`. -/
inductive HistKind where
  | comment
  | status
deriving DecidableEq, Repr

/-- `type UnifiedHistEntry = { ts: number; kind: "comment" | "status"; text: string }` -/
structure UnifiedHistEntry where
  ts : Nat
  kind : HistKind
  text : String
deriving DecidableEq, Repr

/-- `const prettyStatus = (s) => s === "nao_tratado" ? "Não tratado" : s.charAt(0).toUpperCase() + s.slice(1)` -/
def prettyStatus : AlarmStatus → String
  | .nao_tratado => "Não tratado"
  | .tratado => "Tratado"
  | .concluido => "Concluido"
  | .oportunidade => "Oportunidade"

/-- `const statusToText = (s) => `Status alterado para "${prettyStatus(s.status)}"${s.reason ? ...} .`` -/
def statusToText (s : StatusEntry) : String :=
  "Status alterado para \"" ++ prettyStatus s.status ++ "\""
    ++ (match s.reason with
        | some .auto_new_alarm => " (novo alarme)"
        | some .user => " (usuário)"
        | none => "")
    ++ "."

/-- The ascending-timestamp comparator `(a, b) => a.ts - b.ts` as a relation. -/
def histLe (a b : UnifiedHistEntry) : Prop := a.ts ≤ b.ts

instance : DecidableRel histLe := fun a b => inferInstanceAs (Decidable (a.ts ≤ b.ts))

instance : IsTotal UnifiedHistEntry histLe := ⟨fun a b => Nat.le_total a.ts b.ts⟩

instance : IsTrans UnifiedHistEntry histLe := ⟨fun _ _ _ h₁ h₂ => Nat.le_trans h₁ h₂⟩

/-- The comment-log half of the merged view. -/
def commentEntriesOf (comments : List CommentEntry) : List UnifiedHistEntry :=
  comments.map fun c => ⟨c.ts, .comment, c.text⟩

/-- The status-log half of the merged view. -/
def statusEntriesOf (slog : List StatusEntry) : List UnifiedHistEntry :=
  slog.map fun s => ⟨s.ts, .status, statusToText s⟩

/-- `rebuildUnified`: map both logs into unified entries, concatenate, and
stable-sort ascending by timestamp (`[...comments, ...statuses].sort((a, b) => a.ts - b.ts)`;
JS `Array.prototype.sort` is a stable sort, modelled by `insertionSort`). -/
def rebuildUnified (comments : List CommentEntry) (slog : List StatusEntry) :
    List UnifiedHistEntry :=
  List.insertionSort histLe (commentEntriesOf comments ++ statusEntriesOf slog)

/-! ### Lineage grouping

`makeGroupsRaw` builds a JS `Map<string, { gk, rep, items }>`: insertion-ordered,
first occurrence of a key creates the entry, later occurrences push onto
`items` and replace `rep` only on a strictly larger adjusted timestamp.
The insertion-ordered map with unique keys is represented as a list. -/

/-- One entry of the `makeGroupsRaw` map: `{ gk, rep, items }`. -/
structure RawGroup where
  gk : String
  rep : Row
  items : List Row
deriving DecidableEq, Repr

/-- One `map.get/map.set` upsert step of `makeGroupsRaw`. -/
def insertRaw (r : Row) : List RawGroup → List RawGroup
  | [] => [⟨rowKey r, r, [r]⟩]
  | g :: gs =>
    if g.gk = rowKey r then
      { g with
        rep := if g.rep.dateTimeAdjMs < r.dateTimeAdjMs then r else g.rep,
        items := g.items ++ [r] } :: gs
    else
      g :: insertRaw r gs

/-- `const makeGroupsRaw = (list) => { const map = new Map(); for (const r of list) {...}; return Array.from(map.values()); }` -/
def makeGroupsRaw (list : List Row) : List RawGroup :=
  list.foldl (fun acc r => insertRaw r acc) []

/-- The descending-adjusted-timestamp comparator `(a, b) => b.dateTimeAdjMs - a.dateTimeAdjMs`
used to sort each group's history newest-first. -/
def rowGe (a b : Row) : Prop := b.dateTimeAdjMs ≤ a.dateTimeAdjMs

instance : DecidableRel rowGe := fun a b =>
  inferInstanceAs (Decidable (b.dateTimeAdjMs ≤ a.dateTimeAdjMs))

instance : IsTotal Row rowGe := ⟨fun a b => (Int.le_total b.dateTimeAdjMs a.dateTimeAdjMs)⟩

instance : IsTrans Row rowGe := ⟨fun _ _ _ h₁ h₂ => Int.le_trans h₂ h₁⟩

/-- One entry of the `grouped` memo's map: `{ row, count, items }` keyed by `gk`. -/
structure PreGroup where
  gk : String
  row : Row
  count : Nat
  items : List Row
deriving DecidableEq, Repr

/-- One upsert step of the `grouped` memo:
`if (!got) map.set(gk, { row: r, count: 1, items: [r] }) else { got.count += 1; got.items.push(r); if (r.dateTimeAdjMs > got.row.dateTimeAdjMs) got.row = r; }` -/
def insertPre (r : Row) : List PreGroup → List PreGroup
  | [] => [⟨rowKey r, r, 1, [r]⟩]
  | g :: gs =>
    if g.gk = rowKey r then
      { g with
        count := g.count + 1,
        items := g.items ++ [r],
        row := if g.row.dateTimeAdjMs < r.dateTimeAdjMs then r else g.row } :: gs
    else
      g :: insertPre r gs

/-- The result shape of the `grouped` memo:
`{ ...row, __groupCount: count, __items: items, __gk: gk }`. -/
structure GroupedRow where
  row : Row
  groupCount : Nat
  items : List Row
  gk : String
deriving DecidableEq, Repr

/-- The `grouped` memo as a pure function of its input list: build the map,
sort each group's `__items` newest-first (`items.sort((a, b) => b.dateTimeAdjMs - a.dateTimeAdjMs)`),
and flatten the entries. -/
def groupedOf (l : List Row) : List GroupedRow :=
  (l.foldl (fun acc r => insertPre r acc) []).map fun g =>
    ⟨g.row, g.count, List.insertionSort rowGe g.items, g.gk⟩

/-! ### Mirror notifier (`persistIfRelevant`) -/

/-- The JSON body posted to `/notes`:
`{ id, server, site, point, status, comment, dateTime }`. -/
structure NotePayload where
  id : String
  server : String
  site : String
  point : String
  status : AlarmStatus
  comment : String
  dateTime : String
deriving DecidableEq, Repr

/-- `persistIfRelevant(row, status, comment, backends)`: guard on the row being
present and `shouldPersist`, then fire one best-effort note per *enabled*
backend.  Every send error is swallowed (`.catch(() => {})` plus nested
`try {} catch {}`), so the list of attempted sends does not depend on any
send outcome, and the function touches no local state: it is modelled as the
list of payloads attempted. -/
def persistIfRelevant (row : Option Row) (status : AlarmStatus) (comment : String)
    (backends : List BackendCfg) : List NotePayload :=
  match row with
  | none => []
  | some r =>
    if shouldPersist status comment then
      (backends.filter (·.enabled)).map fun _b =>
        ⟨r.id, r.server, r.site, r.point, status, comment, r.dateTimeISO⟩
    else
      []

/-! ### Poll cycle (`fetchData`) and the acknowledgement override effect

The network and clock are oracles passed in explicitly: `outcome` gives each
source's login+fetch result for this cycle, `now` is `Date.now()`, `parseMs`
is `new Date(iso).getTime()` and `fmt` is the locale date formatter
`formatDateWithOffset` (display-only). -/

/-- Result of one source's `loginBase` + `getAlarmsBase` pipeline for a cycle:
either the fetched items or the caught error message. -/
inductive SourceOutcome where
  | success (items : List AlarmDTO)
  | failure (error : String)
deriving DecidableEq, Repr

/-- Runtime services consumed by the cycle. -/
structure Env where
  now : Nat
  parseMs : String → Int
  fmt : String → SimNao → Int → String

/-- `typeof b.offset === "number" ? b.offset : (b.offsetHours ? (b.offsetSign === "-" ? -Math.abs(b.offsetHours) : Math.abs(b.offsetHours)) : 0)`
(`offsetHours` equal to `0` is falsy in JS). -/
def resolveOffset (b : BackendCfg) : Int :=
  match b.offset with
  | some o => o
  | none =>
    match b.offsetHours with
    | some h =>
      if h = 0 then 0
      else if b.offsetSign = some .nao then -(h.natAbs : Int) else (h.natAbs : Int)
    | none => 0

/-- `const calcAdjMsUnified = (iso, offsetHours = 0) => new Date(iso).getTime() + (offsetHours || 0) * 3600_000` -/
def calcAdjMsUnified (env : Env) (iso : String) (offsetHours : Int) : Int :=
  env.parseMs iso + offsetHours * 3600000

/-- The per-item mapping inside `fetchData` that builds a canonical `Row` from
a backend's `AlarmDTO`. -/
def rowOfDTO (env : Env) (b : BackendCfg) (a : AlarmDTO) : Row :=
  let off := resolveOffset b
  let v := normalizeValue (a.triggerValue.bind (·.value))
  let u := mapUnit (a.triggerValue.bind (·.units))
  { id := b.id ++ "_" ++ a.id
    server := b.label
    dateTimeISO := a.creationTime
    dateTime := env.fmt a.creationTime (if 0 ≤ off then .sim else .nao) (off.natAbs : Int)
    dateTimeAdjMs := calcAdjMsUnified env a.creationTime off
    site := a.itemReference
    point := if a.name ≠ "" then a.name else a.itemReference
    value := match u with
      | some s => if s ≠ "" then v ++ " " ++ s else v
      | none => v
    priority := a.priority.getD 0
    reconhecido := if a.isAcknowledged then .sim else .nao
    descartado := if a.isDiscarded then .sim else .nao
    message := a.message.getD "" }

/-- The rows one source contributes: its mapped items on success, nothing on a
caught failure. -/
def sourceRows (env : Env) (outcome : BackendCfg → SourceOutcome) (b : BackendCfg) :
    List Row :=
  match outcome b with
  | .success items => items.map (rowOfDTO env b)
  | .failure _ => []

/-- `all`: the union (in enabled-backend order) of the successful sources' rows. -/
def collectRows (env : Env) (outcome : BackendCfg → SourceOutcome)
    (enabled : List BackendCfg) : List Row :=
  enabled.flatMap (sourceRows env outcome)

/-- `errors`: one `(source id, message)` pair per failed source, none for
successes. -/
def collectErrors (outcome : BackendCfg → SourceOutcome)
    (enabled : List BackendCfg) : List (String × String) :=
  enabled.filterMap fun b =>
    match outcome b with
    | .failure e => some (b.id, e)
    | .success _ => none

/-- The automatic comment text appended by the new-occurrence reset. -/
def autoResetText : String := "Status alterado para \"Não tratado\" (novo alarme)."

/-- The three persisted effects of one new-occurrence reset on a lineage key:
`saveStatus(gk, "nao_tratado")`, append `{ts, "nao_tratado", "auto_new_alarm"}`
to the status log, append the automatic comment to the comment log. -/
def applyReset (now : Nat) (st : Store) (gk : String) : Store :=
  let st₁ := st.saveStatus gk .nao_tratado
  let st₂ := st₁.saveStatusLog gk
    (st₁.loadStatusLog gk ++ [⟨now, .nao_tratado, some .auto_new_alarm⟩])
  st₂.saveCommentList gk (st₂.loadCommentList gk ++ [⟨now, autoResetText⟩])

/-- One iteration of the detector loop in `fetchData`:
`const prevC = prevCounts[g.gk] ?? 0; const currC = g.items.length;
if (currC > prevC && prevC > 0) { ...reset effects...; changedGks.push(g.gk); }`. -/
def resetStep (now : Nat) (prevCounts : List (String × Nat))
    (acc : Store × List String) (g : RawGroup) : Store × List String :=
  let prevC := ((prevCounts.find? (fun p => p.1 = g.gk)).map (·.2)).getD 0
  let currC := g.items.length
  if prevC < currC ∧ 0 < prevC then
    (applyReset now acc.1 g.gk, acc.2 ++ [g.gk])
  else
    acc

/-- The outcome of one `fetchData` cycle: the pieces of component state it
writes (`setRows`, `setBackendErrors`, `setStatuses`, `setSecondsLeft`), the
persisted store, the replaced previous-cycle counts map, and the ids of the
sources it issued network calls to. -/
structure FetchResult where
  rows : List Row
  errors : List (String × String)
  statuses : String → Option AlarmStatus
  store : Store
  prevCounts : List (String × Nat)
  secondsLeft : Nat
  calls : List String

/-- The `setStatuses` updater in `fetchData`:
`for (const gk of changedGks) next[gk] = "nao_tratado";
for (const g of groups) if (next[g.gk] === undefined) next[g.gk] = loadStatus(g.gk);`
(`loadStatus` reads the store as left by the detector loop). -/
def updateStatuses (changed : List String) (groups : List RawGroup) (st : Store)
    (statuses : String → Option AlarmStatus) : String → Option AlarmStatus :=
  let s₁ := changed.foldl
    (fun m gk => fun k => if k = gk then some .nao_tratado else m k) statuses
  groups.foldl
    (fun m g =>
      if (m g.gk).isNone then
        fun k => if k = g.gk then some (st.loadStatus g.gk) else m k
      else m)
    s₁

/-- One full `fetchData` cycle.  With zero enabled sources it short-circuits:
`if (!enabled.length) { setRows([]); setBackendErrors({}); setSecondsLeft(60); return; }`
with no network call.  Otherwise all enabled sources are queried (concurrently
in the source; each failure is caught per source), the union is grouped, the
occurrence-change detector fires the reset effects, the in-memory statuses are
refreshed, and the previous-cycle counts map is overwritten with the current
counts. -/
def fetchData (env : Env) (outcome : BackendCfg → SourceOutcome)
    (backends : List BackendCfg) (statuses : String → Option AlarmStatus)
    (st : Store) (prevCounts : List (String × Nat)) : FetchResult :=
  let enabled := backends.filter (·.enabled)
  if enabled.isEmpty then
    ⟨[], [], statuses, st, prevCounts, 60, []⟩
  else
    let all := collectRows env outcome enabled
    let errors := collectErrors outcome enabled
    let groups := makeGroupsRaw all
    let stChanged := groups.foldl (resetStep env.now prevCounts) (st, [])
    let statuses₂ := updateStatuses stChanged.2 groups stChanged.1 statuses
    ⟨all, errors, statuses₂, stChanged.1,
      groups.map (fun g => (g.gk, g.items.length)), 60, enabled.map (·.id)⟩

/-! ### Acknowledgement/discard override (the `useEffect` over `rows`) -/

/-- The representative map built by the `rows` effect:
`const groups = new Map(); for (const r of rows) { const gk = groupKey(r); const rep = groups.get(gk); if (!rep || r.dateTimeAdjMs > rep.dateTimeAdjMs) groups.set(gk, r); }`. -/
def upsertRep (m : List (String × Row)) (r : Row) : List (String × Row) :=
  let gk := rowKey r
  match m.find? (fun p => p.1 = gk) with
  | none => m ++ [(gk, r)]
  | some rep =>
    if rep.2.dateTimeAdjMs < r.dateTimeAdjMs then
      m.map (fun p => if p.1 = gk then (gk, r) else p)
    else m

/-- All representatives of a row list, insertion-ordered by first key sighting. -/
def repsOf (rows : List Row) : List (String × Row) :=
  rows.foldl upsertRep []

/-- One iteration of the override loop:
`const derived = rep.reconhecido === "Sim" || rep.descartado === "Sim" ? "concluido" : (next[gk] ?? loadStatus(gk)); next[gk] = derived; saveStatus(gk, derived);`. -/
def overrideStep (acc : (String → Option AlarmStatus) × Store)
    (e : String × Row) : (String → Option AlarmStatus) × Store :=
  let derived : AlarmStatus :=
    if e.2.reconhecido = .sim ∨ e.2.descartado = .sim then .concluido
    else (acc.1 e.1).getD (acc.2.loadStatus e.1)
  (fun k => if k = e.1 then some derived else acc.1 k, acc.2.saveStatus e.1 derived)

/-- The `useEffect(() => {...}, [rows])` body: skip on an empty row list, else
re-derive and persist every lineage's status from its representative. -/
def applyRowsEffect (rows : List Row) (statuses : String → Option AlarmStatus)
    (st : Store) : (String → Option AlarmStatus) × Store :=
  if rows.isEmpty then (statuses, st)
  else (repsOf rows).foldl overrideStep (statuses, st)

/-- `const computedStatus = (g) => g.reconhecido === "Sim" || g.descartado === "Sim" ? "concluido" : (statuses[g.__gk] ?? loadStatus(g.__gk) ?? "nao_tratado")`
(the trailing `?? "nao_tratado"` is unreachable because `loadStatus` already
defaults). -/
def computedStatus (statuses : String → Option AlarmStatus) (st : Store)
    (g : GroupedRow) : AlarmStatus :=
  if g.row.reconhecido = .sim ∨ g.row.descartado = .sim then .concluido
  else (statuses g.gk).getD (st.loadStatus g.gk)

/-! ### Comment submission (`sendComment`) -/

/-- The state a `sendComment` invocation writes: the store, the unified
history, the mirror sends it fired, and the cleared draft. -/
structure SendCommentResult where
  store : Store
  unified : List UnifiedHistEntry
  sends : List NotePayload
  draft : String

/-- `sendComment`: bail out on no active lineage or an all-whitespace draft;
else append the trimmed comment to the lineage's comment log, splice it into
the unified history (re-sorted ascending), mirror via `persistIfRelevant`
using the *stored* status (`loadStatus(activeGk)`), and clear the draft.
The lineage's status — persisted or in-memory — is never written. -/
def sendComment (now : Nat) (activeGk : Option String) (draftComment : String)
    (rows : List Row) (backends : List BackendCfg) (st : Store)
    (unified : List UnifiedHistEntry) : SendCommentResult :=
  match activeGk with
  | none => ⟨st, unified, [], draftComment⟩
  | some gk =>
    let text := jsTrim draftComment
    if text = "" then ⟨st, unified, [], draftComment⟩
    else
      let updated := st.loadCommentList gk ++ [⟨now, text⟩]
      let st' := st.saveCommentList gk updated
      let unified' := List.insertionSort histLe (unified ++ [⟨now, .comment, text⟩])
      let parts := gk.splitOn "::"
      let row := rows.find? fun r =>
        parts[0]? = some r.server && parts[1]? = some r.site && parts[2]? = some r.point
      ⟨st', unified', persistIfRelevant row (st.loadStatus gk) text backends, ""⟩

/-! ### Raw fail-safe storage layer

The `localStorage` accessors in the source each wrap the browser call in
`try { ... } catch { <default> }`.  `ReadResult` models one `getItem` call
(`thrown` = the storage read itself threw), `Parsed` models one `JSON.parse`
(`fail` = the parse threw, caught by the surrounding handler), and
`WriteOutcome` models one `setItem` call. -/

/-- Outcome of a `localStorage.getItem` call. -/
inductive ReadResult where
  | ok (v : Option String)
  | thrown
deriving DecidableEq, Repr

/-- Outcome of a `JSON.parse` call decoding to `α`. -/
inductive Parsed (α : Type) where
  | ok (a : α)
  | fail
deriving DecidableEq, Repr

/-- Outcome of a `localStorage.setItem` call. -/
inductive WriteOutcome where
  | ok
  | thrown
deriving DecidableEq, Repr

/-- `loadStatus` at the raw layer:
`try { return (localStorage.getItem(STATUS_KEY(gk)) as AlarmStatus) || "nao_tratado"; } catch { return "nao_tratado"; }`
— the stored string is returned unvalidated; `null` and `""` are falsy. -/
def loadStatusRaw : ReadResult → String
  | .thrown => "nao_tratado"
  | .ok none => "nao_tratado"
  | .ok (some s) => if s = "" then "nao_tratado" else s

/-- `loadCommentList` at the raw layer:
`try { const raw = localStorage.getItem(...); return raw ? JSON.parse(raw) : []; } catch { return []; }`. -/
def loadCommentListRaw (read : ReadResult)
    (parse : String → Parsed (List CommentEntry)) : List CommentEntry :=
  match read with
  | .thrown => []
  | .ok none => []
  | .ok (some raw) =>
    if raw = "" then []
    else match parse raw with
      | .ok l => l
      | .fail => []

/-- `loadStatusLog` at the raw layer (same shape as `loadCommentListRaw`). -/
def loadStatusLogRaw (read : ReadResult)
    (parse : String → Parsed (List StatusEntry)) : List StatusEntry :=
  match read with
  | .thrown => []
  | .ok none => []
  | .ok (some raw) =>
    if raw = "" then []
    else match parse raw with
      | .ok l => l
      | .fail => []

/-- A raw key-value view of `localStorage`. -/
def KVStore : Type := String → Option String

/-- `saveStatus` at the raw layer: `try { localStorage.setItem(STATUS_KEY(gk), s); } catch {}`
— on a thrown write the store is left as it was and no exception escapes. -/
def saveStatusRaw (kv : KVStore) (gk : String) (s : String) :
    WriteOutcome → KVStore
  | .ok => fun k => if k = STATUS_KEY gk then some s else kv k
  | .thrown => kv

/-- `saveCommentList` at the raw layer (`serialize` models `JSON.stringify`). -/
def saveCommentListRaw (kv : KVStore) (gk : String)
    (serialize : List CommentEntry → String) (l : List CommentEntry) :
    WriteOutcome → KVStore
  | .ok => fun k => if k = COMMENT_LIST_KEY gk then some (serialize l) else kv k
  | .thrown => kv

/-- `saveStatusLog` at the raw layer. -/
def saveStatusLogRaw (kv : KVStore) (gk : String)
    (serialize : List StatusEntry → String) (l : List StatusEntry) :
    WriteOutcome → KVStore
  | .ok => fun k => if k = STATUS_LOG_KEY gk then some (serialize l) else kv k
  | .thrown => kv

/-! ### Proof-level definitions (lookup functions and fold invariants) -/

/-- First entry with a given lineage key (the JS `map.get`). -/
def findGroup : List RawGroup → String → Option RawGroup
  | [], _ => none
  | g :: gs, k => if g.gk = k then some g else findGroup gs k

/-- Invariant of the `makeGroupsRaw` fold relative to the rows consumed so
far: each present key holds exactly the filtered sub-list of processed rows
(in input order) and a representative that is a member of maximal adjusted
timestamp; absent keys have no processed row. -/
def GroupsSpec (processed : List Row) (gs : List RawGroup) : Prop :=
  ∀ k : String,
    (findGroup gs k = none →
      processed.filter (fun r => decide (rowKey r = k)) = []) ∧
    (∀ g, findGroup gs k = some g →
      g.gk = k ∧
      g.items = processed.filter (fun r => decide (rowKey r = k)) ∧
      g.rep ∈ g.items ∧
      ∀ i ∈ g.items, i.dateTimeAdjMs ≤ g.rep.dateTimeAdjMs)

/-- First entry with a given lineage key in the `grouped` map. -/
def findPre : List PreGroup → String → Option PreGroup
  | [], _ => none
  | g :: gs, k => if g.gk = k then some g else findPre gs k

/-- Invariant of the `grouped` fold: same as `GroupsSpec` plus
`count = items.length`. -/
def PreSpec (processed : List Row) (gs : List PreGroup) : Prop :=
  ∀ k : String,
    (findPre gs k = none →
      processed.filter (fun r => decide (rowKey r = k)) = []) ∧
    (∀ g, findPre gs k = some g →
      g.gk = k ∧
      g.items = processed.filter (fun r => decide (rowKey r = k)) ∧
      g.count = g.items.length ∧
      g.row ∈ g.items ∧
      ∀ i ∈ g.items, i.dateTimeAdjMs ≤ g.row.dateTimeAdjMs)

/-! ### Concrete sample data (used to instantiate the theorems below) -/

/-- Sample occurrence: lineage `S::x::p`, adjusted timestamp 5. -/
def rowA : Row := ⟨"1", "S", "t1", "d1", 5, "x", "p", "v", 0, .nao, .nao, ""⟩

/-- Sample occurrence: lineage `S::x::p`, adjusted timestamp 9. -/
def rowB : Row := ⟨"2", "S", "t2", "d2", 9, "x", "p", "v", 0, .nao, .nao, ""⟩

/-- Sample occurrence: lineage `S::y::q`, acknowledged upstream. -/
def rowC : Row := ⟨"3", "S", "t3", "d3", 3, "y", "q", "v", 0, .sim, .nao, ""⟩

/-- Sample alarm item as returned by a source. -/
def dtoOne : AlarmDTO := ⟨"1", "site", "pt", "t", false, false, some 0, none, none⟩

/-- Second sample alarm item with the same lineage key as `dtoOne`. -/
def dtoTwo : AlarmDTO := ⟨"2", "site", "pt", "t", false, false, some 0, none, none⟩

/-- An enabled source descriptor labelled `S`. -/
def backendOne : BackendCfg := ⟨"b", "S", "", some 2, "u", "p", true, some 0, none, none⟩

/-- A second enabled source descriptor, id `bad`. -/
def backendBad : BackendCfg := ⟨"bad", "T", "", some 1, "u", "p", true, some 0, none, none⟩

/-- A disabled source descriptor. -/
def backendOff : BackendCfg := ⟨"c", "U", "", some 1, "u", "p", false, some 0, none, none⟩

/-- A concrete runtime environment: clock at 100, every ISO string parses to 0,
formatting returns the empty display string. -/
def envOne : Env := ⟨100, fun _ => 0, fun _ _ _ => ""⟩

/-- The empty local store. -/
def storeEmpty : Store := ⟨fun _ => none, fun _ => [], fun _ => []⟩

/-- Oracle: every source returns the two sample items. -/
def outcomeBoth : BackendCfg → SourceOutcome := fun _ => .success [dtoOne, dtoTwo]

/-- Oracle: the source with id `bad` fails authentication, the rest succeed. -/
def outcomeMixed : BackendCfg → SourceOutcome := fun b =>
  if b.id = "bad" then .failure "auth" else .success [dtoOne]

/-- The single lineage group of `[dtoOne, dtoTwo]` through `backendOne`. -/
def groupOne : RawGroup :=
  ⟨"S::site::pt", rowOfDTO envOne backendOne dtoOne,
    [rowOfDTO envOne backendOne dtoOne, rowOfDTO envOne backendOne dtoTwo]⟩

/-! ### Grouping lemmas -/

theorem mem_of_findGroup {gs : List RawGroup} {k : String} {g : RawGroup}
    (h : findGroup gs k = some g) : g ∈ gs := by
  induction gs with
  | nil => simp [findGroup] at h
  | cons g₀ gs ih =>
    by_cases hk : g₀.gk = k
    · simp [findGroup, hk] at h
      simp [h]
    · simp [findGroup, hk] at h
      exact List.mem_cons_of_mem _ (ih h)

theorem findGroup_insertRaw (r : Row) : ∀ (gs : List RawGroup) (k : String),
    findGroup (insertRaw r gs) k =
      if k = rowKey r then
        match findGroup gs k with
        | none => some ⟨rowKey r, r, [r]⟩
        | some g => some { g with
            rep := if g.rep.dateTimeAdjMs < r.dateTimeAdjMs then r else g.rep,
            items := g.items ++ [r] }
      else findGroup gs k := by
  intro gs
  induction gs with
  | nil =>
    intro k
    by_cases hk : k = rowKey r
    · simp [insertRaw, findGroup, hk]
    · have hrk : ¬(rowKey r = k) := fun h => hk h.symm
      simp [insertRaw, findGroup, hk, hrk]
  | cons g gs ih =>
    intro k
    by_cases hg : g.gk = rowKey r
    · by_cases hk : k = rowKey r
      · simp [insertRaw, hg, findGroup, hk, hg.trans hk.symm]
      · have hrk : ¬(rowKey r = k) := fun h => hk h.symm
        have hgk : ¬(g.gk = k) := fun h => hk (h.symm.trans hg)
        simp [insertRaw, hg, findGroup, hk, hgk, hrk]
    · by_cases hk : k = rowKey r
      · have hgk : ¬(g.gk = k) := fun h => hg (h.trans hk)
        simp [insertRaw, hg, findGroup, hgk, ih, hk]
      · by_cases hgk : g.gk = k
        · simp [insertRaw, hg, findGroup, hgk, hk]
        · simp [insertRaw, hg, findGroup, hgk, ih, hk]

theorem findGroup_insertRaw_self_none {gs : List RawGroup} {r : Row}
    (h : findGroup gs (rowKey r) = none) :
    findGroup (insertRaw r gs) (rowKey r) = some ⟨rowKey r, r, [r]⟩ := by
  simp [findGroup_insertRaw, h]

theorem findGroup_insertRaw_self_some {gs : List RawGroup} {r : Row} {g : RawGroup}
    (h : findGroup gs (rowKey r) = some g) :
    findGroup (insertRaw r gs) (rowKey r) = some { g with
      rep := if g.rep.dateTimeAdjMs < r.dateTimeAdjMs then r else g.rep,
      items := g.items ++ [r] } := by
  simp [findGroup_insertRaw, h]

theorem findGroup_insertRaw_other {gs : List RawGroup} {r : Row} {k : String}
    (h : ¬(k = rowKey r)) :
    findGroup (insertRaw r gs) k = findGroup gs k := by
  simp [findGroup_insertRaw, h]

theorem keys_insertRaw (r : Row) : ∀ gs : List RawGroup,
    (insertRaw r gs).map (·.gk) =
      if rowKey r ∈ gs.map (·.gk) then gs.map (·.gk)
      else gs.map (·.gk) ++ [rowKey r] := by
  intro gs
  induction gs with
  | nil => simp [insertRaw]
  | cons g gs ih =>
    by_cases hg : g.gk = rowKey r
    · simp [insertRaw, hg]
    · have : ¬(rowKey r = g.gk) := fun h => hg h.symm
      simp only [insertRaw, if_neg hg, List.map_cons, List.mem_cons, this, false_or, ih]
      by_cases hmem : rowKey r ∈ gs.map (·.gk) <;> simp [hmem]

theorem nodup_keys_insertRaw (r : Row) {gs : List RawGroup}
    (h : (gs.map (·.gk)).Nodup) : ((insertRaw r gs).map (·.gk)).Nodup := by
  rw [keys_insertRaw]
  by_cases hmem : rowKey r ∈ gs.map (·.gk)
  · simpa [hmem]
  · simpa [hmem, List.nodup_append] using h

theorem nodup_keys_foldInsert : ∀ (l : List Row) (gs : List RawGroup),
    (gs.map (·.gk)).Nodup →
    ((l.foldl (fun acc r => insertRaw r acc) gs).map (·.gk)).Nodup := by
  intro l
  induction l with
  | nil => intro gs h; simpa using h
  | cons r l ih =>
    intro gs h
    exact ih (insertRaw r gs) (nodup_keys_insertRaw r h)

theorem nodup_keys_makeGroupsRaw (l : List Row) :
    ((makeGroupsRaw l).map (·.gk)).Nodup :=
  nodup_keys_foldInsert l [] (by simp)

theorem findGroup_of_mem : ∀ {gs : List RawGroup}, ((gs.map (·.gk)).Nodup) →
    ∀ {g : RawGroup}, g ∈ gs → findGroup gs g.gk = some g := by
  intro gs
  induction gs with
  | nil => intro _ g hg; simp at hg
  | cons g₀ gs ih =>
    intro hnd g hg
    rcases List.mem_cons.mp hg with h | h
    · subst h; simp [findGroup]
    · have hne : ¬(g₀.gk = g.gk) := by
        intro he
        have : g.gk ∈ gs.map (·.gk) := List.mem_map_of_mem (·.gk) h
        rw [List.map_cons, List.nodup_cons] at hnd
        exact hnd.1 (he ▸ this)
      simp only [findGroup, if_neg hne]
      exact ih (by rw [List.map_cons, List.nodup_cons] at hnd; exact hnd.2) h

theorem groupsSpec_insertRaw {processed : List Row} {gs : List RawGroup}
    (hs : GroupsSpec processed gs) (r : Row) :
    GroupsSpec (processed ++ [r]) (insertRaw r gs) := by
  intro k
  by_cases hk : k = rowKey r
  · subst hk
    constructor
    · intro hnone
      cases hcur : findGroup gs (rowKey r) with
      | none => rw [findGroup_insertRaw_self_none hcur] at hnone; simp at hnone
      | some g₀ => rw [findGroup_insertRaw_self_some hcur] at hnone; simp at hnone
    · intro g hg
      cases hcur : findGroup gs (rowKey r) with
      | none =>
        rw [findGroup_insertRaw_self_none hcur, Option.some.injEq] at hg
        subst hg
        have hemp := (hs (rowKey r)).1 hcur
        refine ⟨rfl, ?_, by simp, by simp⟩
        simp [List.filter_append, hemp]
      | some g₀ =>
        rw [findGroup_insertRaw_self_some hcur, Option.some.injEq] at hg
        subst hg
        obtain ⟨hgk, hitems, hrep, hmax⟩ := (hs (rowKey r)).2 g₀ hcur
        refine ⟨hgk, ?_, ?_, ?_⟩
        · simp [List.filter_append, ← hitems]
        · by_cases hlt : g₀.rep.dateTimeAdjMs < r.dateTimeAdjMs <;>
            simp [hlt, List.mem_append, hrep]
        · intro i hi
          rcases List.mem_append.mp hi with hi | hi
          · by_cases hlt : g₀.rep.dateTimeAdjMs < r.dateTimeAdjMs
            · simp only [if_pos hlt]
              exact le_of_lt (lt_of_le_of_lt (hmax i hi) hlt)
            · simp only [if_neg hlt]
              exact hmax i hi
          · simp only [List.mem_singleton] at hi
            subst i
            by_cases hlt : g₀.rep.dateTimeAdjMs < r.dateTimeAdjMs
            · simp [hlt]
            · simp only [if_neg hlt]
              exact le_of_not_lt hlt
  · constructor
    · intro hnone
      rw [findGroup_insertRaw_other hk] at hnone
      have hemp := (hs k).1 hnone
      have : ¬(rowKey r = k) := fun h => hk h.symm
      simp [List.filter_append, hemp, this]
    · intro g hg
      rw [findGroup_insertRaw_other hk] at hg
      obtain ⟨hgk, hitems, hrep, hmax⟩ := (hs k).2 g hg
      have : ¬(rowKey r = k) := fun h => hk h.symm
      exact ⟨hgk, by simp [List.filter_append, this, hitems], hrep, hmax⟩

theorem groupsSpec_foldInsert : ∀ (l processed : List Row) (gs : List RawGroup),
    GroupsSpec processed gs →
    GroupsSpec (processed ++ l) (l.foldl (fun acc r => insertRaw r acc) gs) := by
  intro l
  induction l with
  | nil => intro processed gs h; simpa using h
  | cons r l ih =>
    intro processed gs h
    have := ih (processed ++ [r]) (insertRaw r gs) (groupsSpec_insertRaw h r)
    simpa using this

theorem groupsSpec_makeGroupsRaw (l : List Row) : GroupsSpec l (makeGroupsRaw l) := by
  have := groupsSpec_foldInsert l [] [] (by intro k; constructor <;> simp [findGroup])
  simpa [makeGroupsRaw] using this

/-- Per-member form of the invariant for `makeGroupsRaw`. -/
theorem makeGroupsRaw_mem_spec {l : List Row} {g : RawGroup}
    (hg : g ∈ makeGroupsRaw l) :
    g.items = l.filter (fun r => decide (rowKey r = g.gk)) ∧
    g.rep ∈ g.items ∧
    ∀ i ∈ g.items, i.dateTimeAdjMs ≤ g.rep.dateTimeAdjMs := by
  have hfind := findGroup_of_mem (nodup_keys_makeGroupsRaw l) hg
  obtain ⟨_, hitems, hrep, hmax⟩ := (groupsSpec_makeGroupsRaw l g.gk).2 g hfind
  exact ⟨hitems, hrep, hmax⟩

/-- Every input row's key is present among the groups. -/
theorem makeGroupsRaw_covers {l : List Row} {r : Row} (hr : r ∈ l) :
    ∃ g ∈ makeGroupsRaw l, g.gk = rowKey r := by
  cases hcur : findGroup (makeGroupsRaw l) (rowKey r) with
  | none =>
    have hemp := (groupsSpec_makeGroupsRaw l (rowKey r)).1 hcur
    have : r ∈ l.filter (fun r' => decide (rowKey r' = rowKey r)) :=
      List.mem_filter.mpr ⟨hr, by simp⟩
    rw [hemp] at this
    simp at this
  | some g =>
    exact ⟨g, mem_of_findGroup hcur,
      ((groupsSpec_makeGroupsRaw l (rowKey r)).2 g hcur).1⟩

/-! ### Grouping lemmas for the `grouped` memo (`insertPre`) -/

theorem mem_of_findPre {gs : List PreGroup} {k : String} {g : PreGroup}
    (h : findPre gs k = some g) : g ∈ gs := by
  induction gs with
  | nil => simp [findPre] at h
  | cons g₀ gs ih =>
    by_cases hk : g₀.gk = k
    · simp [findPre, hk] at h
      simp [h]
    · simp [findPre, hk] at h
      exact List.mem_cons_of_mem _ (ih h)

theorem findPre_insertPre (r : Row) : ∀ (gs : List PreGroup) (k : String),
    findPre (insertPre r gs) k =
      if k = rowKey r then
        match findPre gs k with
        | none => some ⟨rowKey r, r, 1, [r]⟩
        | some g => some { g with
            count := g.count + 1,
            items := g.items ++ [r],
            row := if g.row.dateTimeAdjMs < r.dateTimeAdjMs then r else g.row }
      else findPre gs k := by
  intro gs
  induction gs with
  | nil =>
    intro k
    by_cases hk : k = rowKey r
    · simp [insertPre, findPre, hk]
    · have hrk : ¬(rowKey r = k) := fun h => hk h.symm
      simp [insertPre, findPre, hk, hrk]
  | cons g gs ih =>
    intro k
    by_cases hg : g.gk = rowKey r
    · by_cases hk : k = rowKey r
      · simp [insertPre, hg, findPre, hk, hg.trans hk.symm]
      · have hrk : ¬(rowKey r = k) := fun h => hk h.symm
        have hgk : ¬(g.gk = k) := fun h => hk (h.symm.trans hg)
        simp [insertPre, hg, findPre, hk, hgk, hrk]
    · by_cases hk : k = rowKey r
      · have hgk : ¬(g.gk = k) := fun h => hg (h.trans hk)
        simp [insertPre, hg, findPre, hgk, ih, hk]
      · by_cases hgk : g.gk = k
        · simp [insertPre, hg, findPre, hgk, hk]
        · simp [insertPre, hg, findPre, hgk, ih, hk]

theorem findPre_insertPre_self_none {gs : List PreGroup} {r : Row}
    (h : findPre gs (rowKey r) = none) :
    findPre (insertPre r gs) (rowKey r) = some ⟨rowKey r, r, 1, [r]⟩ := by
  simp [findPre_insertPre, h]

theorem findPre_insertPre_self_some {gs : List PreGroup} {r : Row} {g : PreGroup}
    (h : findPre gs (rowKey r) = some g) :
    findPre (insertPre r gs) (rowKey r) = some { g with
      count := g.count + 1,
      items := g.items ++ [r],
      row := if g.row.dateTimeAdjMs < r.dateTimeAdjMs then r else g.row } := by
  simp [findPre_insertPre, h]

theorem findPre_insertPre_other {gs : List PreGroup} {r : Row} {k : String}
    (h : ¬(k = rowKey r)) :
    findPre (insertPre r gs) k = findPre gs k := by
  simp [findPre_insertPre, h]

theorem keys_insertPre (r : Row) : ∀ gs : List PreGroup,
    (insertPre r gs).map (·.gk) =
      if rowKey r ∈ gs.map (·.gk) then gs.map (·.gk)
      else gs.map (·.gk) ++ [rowKey r] := by
  intro gs
  induction gs with
  | nil => simp [insertPre]
  | cons g gs ih =>
    by_cases hg : g.gk = rowKey r
    · simp [insertPre, hg]
    · have : ¬(rowKey r = g.gk) := fun h => hg h.symm
      simp only [insertPre, if_neg hg, List.map_cons, List.mem_cons, this, false_or, ih]
      by_cases hmem : rowKey r ∈ gs.map (·.gk) <;> simp [hmem]

theorem nodup_keys_insertPre (r : Row) {gs : List PreGroup}
    (h : (gs.map (·.gk)).Nodup) : ((insertPre r gs).map (·.gk)).Nodup := by
  rw [keys_insertPre]
  by_cases hmem : rowKey r ∈ gs.map (·.gk)
  · simpa [hmem]
  · simpa [hmem, List.nodup_append] using h

theorem nodup_keys_foldInsertPre : ∀ (l : List Row) (gs : List PreGroup),
    (gs.map (·.gk)).Nodup →
    ((l.foldl (fun acc r => insertPre r acc) gs).map (·.gk)).Nodup := by
  intro l
  induction l with
  | nil => intro gs h; simpa using h
  | cons r l ih =>
    intro gs h
    exact ih (insertPre r gs) (nodup_keys_insertPre r h)

theorem findPre_of_mem : ∀ {gs : List PreGroup}, ((gs.map (·.gk)).Nodup) →
    ∀ {g : PreGroup}, g ∈ gs → findPre gs g.gk = some g := by
  intro gs
  induction gs with
  | nil => intro _ g hg; simp at hg
  | cons g₀ gs ih =>
    intro hnd g hg
    rcases List.mem_cons.mp hg with h | h
    · subst h; simp [findPre]
    · have hne : ¬(g₀.gk = g.gk) := by
        intro he
        have : g.gk ∈ gs.map (·.gk) := List.mem_map_of_mem (·.gk) h
        rw [List.map_cons, List.nodup_cons] at hnd
        exact hnd.1 (he ▸ this)
      simp only [findPre, if_neg hne]
      exact ih (by rw [List.map_cons, List.nodup_cons] at hnd; exact hnd.2) h

theorem preSpec_insertPre {processed : List Row} {gs : List PreGroup}
    (hs : PreSpec processed gs) (r : Row) :
    PreSpec (processed ++ [r]) (insertPre r gs) := by
  intro k
  by_cases hk : k = rowKey r
  · subst hk
    constructor
    · intro hnone
      cases hcur : findPre gs (rowKey r) with
      | none => rw [findPre_insertPre_self_none hcur] at hnone; simp at hnone
      | some g₀ => rw [findPre_insertPre_self_some hcur] at hnone; simp at hnone
    · intro g hg
      cases hcur : findPre gs (rowKey r) with
      | none =>
        rw [findPre_insertPre_self_none hcur, Option.some.injEq] at hg
        subst hg
        have hemp := (hs (rowKey r)).1 hcur
        refine ⟨rfl, ?_, by simp, by simp, by simp⟩
        simp [List.filter_append, hemp]
      | some g₀ =>
        rw [findPre_insertPre_self_some hcur, Option.some.injEq] at hg
        subst hg
        obtain ⟨hgk, hitems, hcount, hrow, hmax⟩ := (hs (rowKey r)).2 g₀ hcur
        refine ⟨hgk, ?_, ?_, ?_, ?_⟩
        · simp [List.filter_append, ← hitems]
        · simp [hcount]
        · by_cases hlt : g₀.row.dateTimeAdjMs < r.dateTimeAdjMs <;>
            simp [hlt, List.mem_append, hrow]
        · intro i hi
          rcases List.mem_append.mp hi with hi | hi
          · by_cases hlt : g₀.row.dateTimeAdjMs < r.dateTimeAdjMs
            · simp only [if_pos hlt]
              exact le_of_lt (lt_of_le_of_lt (hmax i hi) hlt)
            · simp only [if_neg hlt]
              exact hmax i hi
          · simp only [List.mem_singleton] at hi
            subst i
            by_cases hlt : g₀.row.dateTimeAdjMs < r.dateTimeAdjMs
            · simp [hlt]
            · simp only [if_neg hlt]
              exact le_of_not_lt hlt
  · constructor
    · intro hnone
      rw [findPre_insertPre_other hk] at hnone
      have hemp := (hs k).1 hnone
      have : ¬(rowKey r = k) := fun h => hk h.symm
      simp [List.filter_append, hemp, this]
    · intro g hg
      rw [findPre_insertPre_other hk] at hg
      obtain ⟨hgk, hitems, hcount, hrow, hmax⟩ := (hs k).2 g hg
      have : ¬(rowKey r = k) := fun h => hk h.symm
      exact ⟨hgk, by simp [List.filter_append, this, hitems], hcount, hrow, hmax⟩

theorem preSpec_foldInsert : ∀ (l processed : List Row) (gs : List PreGroup),
    PreSpec processed gs →
    PreSpec (processed ++ l) (l.foldl (fun acc r => insertPre r acc) gs) := by
  intro l
  induction l with
  | nil => intro processed gs h; simpa using h
  | cons r l ih =>
    intro processed gs h
    have := ih (processed ++ [r]) (insertPre r gs) (preSpec_insertPre h r)
    simpa using this

theorem preSpec_fold (l : List Row) :
    PreSpec l (l.foldl (fun acc r => insertPre r acc) []) := by
  have := preSpec_foldInsert l [] [] (by intro k; constructor <;> simp [findPre])
  simpa using this

theorem nodup_keys_groupedOf (l : List Row) : ((groupedOf l).map (·.gk)).Nodup := by
  have h := nodup_keys_foldInsertPre l [] (by simp)
  simpa [groupedOf, List.map_map, Function.comp] using h

theorem groupedOf_covers {l : List Row} {r : Row} (hr : r ∈ l) :
    ∃ G ∈ groupedOf l, G.gk = rowKey r := by
  cases hcur : findPre (l.foldl (fun acc r => insertPre r acc) []) (rowKey r) with
  | none =>
    have hemp := (preSpec_fold l (rowKey r)).1 hcur
    have : r ∈ l.filter (fun r' => decide (rowKey r' = rowKey r)) :=
      List.mem_filter.mpr ⟨hr, by simp⟩
    rw [hemp] at this
    simp at this
  | some g =>
    refine ⟨⟨g.row, g.count, List.insertionSort rowGe g.items, g.gk⟩, ?_, ?_⟩
    · exact List.mem_map_of_mem _ (mem_of_findPre hcur)
    · exact ((preSpec_fold l (rowKey r)).2 g hcur).1

theorem groupedOf_mem_spec {l : List Row} {G : GroupedRow} (hG : G ∈ groupedOf l) :
    G.items.Perm (l.filter (fun r => decide (rowKey r = G.gk))) ∧
    (∀ i ∈ G.items, rowKey i = G.gk) ∧
    G.row ∈ G.items ∧
    (∀ i ∈ G.items, i.dateTimeAdjMs ≤ G.row.dateTimeAdjMs) ∧
    List.Sorted rowGe G.items ∧
    G.groupCount = G.items.length := by
  obtain ⟨g, hg, hfg⟩ := List.mem_map.mp hG
  have hnd := nodup_keys_foldInsertPre l [] (by simp)
  have hfind := findPre_of_mem hnd hg
  obtain ⟨hgk, hitems, hcount, hrow, hmax⟩ := (preSpec_fold l g.gk).2 g hfind
  subst hfg
  refine ⟨?_, ?_, ?_, ?_, ?_, ?_⟩
  · exact (List.perm_insertionSort rowGe g.items).trans (hitems ▸ List.Perm.refl _)
  · intro i hi
    have hi' : i ∈ g.items := (List.mem_insertionSort rowGe).mp hi
    rw [hitems] at hi'
    have := (List.mem_filter.mp hi').2
    simpa using this
  · exact (List.mem_insertionSort rowGe).mpr hrow
  · intro i hi
    exact hmax i ((List.mem_insertionSort rowGe).mp hi)
  · exact List.sorted_insertionSort rowGe g.items
  · rw [hcount]
    exact ((List.perm_insertionSort rowGe g.items).length_eq).symm

theorem mem_keys_makeGroupsRaw {l : List Row} {k : String} :
    k ∈ (makeGroupsRaw l).map (·.gk) ↔ ∃ r ∈ l, rowKey r = k := by
  constructor
  · intro hk
    obtain ⟨g, hg, hgk⟩ := List.mem_map.mp hk
    obtain ⟨hitems, hrep, _⟩ := makeGroupsRaw_mem_spec hg
    have : g.rep ∈ l.filter (fun r => decide (rowKey r = g.gk)) := hitems ▸ hrep
    have hf := List.mem_filter.mp this
    exact ⟨g.rep, hf.1, by simpa [hgk] using hf.2⟩
  · intro ⟨r, hr, hk⟩
    obtain ⟨g, hg, hgk⟩ := makeGroupsRaw_covers hr
    exact hk ▸ hgk ▸ List.mem_map_of_mem (·.gk) hg

/-! ### Detector-loop lemmas (`resetStep` fold) -/

theorem applyReset_self (now : Nat) (st : Store) (gk : String) :
    (applyReset now st gk).statusMap gk = some .nao_tratado ∧
    (applyReset now st gk).statusLogMap gk =
      st.statusLogMap gk ++ [⟨now, .nao_tratado, some .auto_new_alarm⟩] ∧
    (applyReset now st gk).commentMap gk =
      st.commentMap gk ++ [⟨now, autoResetText⟩] := by
  simp [applyReset, Store.saveStatus, Store.saveStatusLog, Store.saveCommentList,
    Store.loadStatusLog, Store.loadCommentList]

theorem applyReset_other (now : Nat) (st : Store) {gk k : String} (h : ¬(k = gk)) :
    (applyReset now st gk).statusMap k = st.statusMap k ∧
    (applyReset now st gk).statusLogMap k = st.statusLogMap k ∧
    (applyReset now st gk).commentMap k = st.commentMap k := by
  simp [applyReset, Store.saveStatus, Store.saveStatusLog, Store.saveCommentList,
    Store.loadStatusLog, Store.loadCommentList, h]

theorem resetStep_other (now : Nat) (pc : List (String × Nat))
    (acc : Store × List String) (g : RawGroup) {k : String} (h : ¬(k = g.gk)) :
    (resetStep now pc acc g).1.statusMap k = acc.1.statusMap k ∧
    (resetStep now pc acc g).1.statusLogMap k = acc.1.statusLogMap k ∧
    (resetStep now pc acc g).1.commentMap k = acc.1.commentMap k := by
  unfold resetStep
  by_cases hc : (((pc.find? (fun p => p.1 = g.gk)).map (·.2)).getD 0 < g.items.length ∧
      0 < ((pc.find? (fun p => p.1 = g.gk)).map (·.2)).getD 0)
  · simp only [if_pos hc]
    exact applyReset_other now acc.1 h
  · simp [if_neg hc]

theorem resetFold_other (now : Nat) (pc : List (String × Nat)) :
    ∀ (gs : List RawGroup) (acc : Store × List String) (k : String),
    (∀ g ∈ gs, ¬(k = g.gk)) →
    ((gs.foldl (resetStep now pc) acc).1.statusMap k = acc.1.statusMap k ∧
     (gs.foldl (resetStep now pc) acc).1.statusLogMap k = acc.1.statusLogMap k ∧
     (gs.foldl (resetStep now pc) acc).1.commentMap k = acc.1.commentMap k) := by
  intro gs
  induction gs with
  | nil => intro acc k _; simp
  | cons g gs ih =>
    intro acc k h
    have hg := h g (List.mem_cons_self g gs)
    have hrest := ih (resetStep now pc acc g) k
      (fun g' hg' => h g' (List.mem_cons_of_mem g hg'))
    obtain ⟨h₁, h₂, h₃⟩ := resetStep_other now pc acc g hg
    simp only [List.foldl_cons]
    exact ⟨hrest.1.trans h₁, hrest.2.1.trans h₂, hrest.2.2.trans h₃⟩

/-- The per-lineage effect of the whole detector loop, for any group of the
current cycle (group keys are pairwise distinct): the reset fires exactly when
`currC > prevC > 0`, and then performs exactly the three persisted writes. -/
theorem resetFold_mem {now : Nat} {pc : List (String × Nat)} :
    ∀ (gs : List RawGroup) (acc : Store × List String) {g : RawGroup},
    (gs.map (·.gk)).Nodup → g ∈ gs →
    (((((pc.find? (fun q => q.1 = g.gk)).map (·.2)).getD 0 < g.items.length ∧
        0 < ((pc.find? (fun q => q.1 = g.gk)).map (·.2)).getD 0) →
      ((gs.foldl (resetStep now pc) acc).1.statusMap g.gk = some .nao_tratado ∧
       (gs.foldl (resetStep now pc) acc).1.statusLogMap g.gk =
         acc.1.statusLogMap g.gk ++ [⟨now, .nao_tratado, some .auto_new_alarm⟩] ∧
       (gs.foldl (resetStep now pc) acc).1.commentMap g.gk =
         acc.1.commentMap g.gk ++ [⟨now, autoResetText⟩])) ∧
     (¬(((pc.find? (fun q => q.1 = g.gk)).map (·.2)).getD 0 < g.items.length ∧
        0 < ((pc.find? (fun q => q.1 = g.gk)).map (·.2)).getD 0) →
      ((gs.foldl (resetStep now pc) acc).1.statusMap g.gk = acc.1.statusMap g.gk ∧
       (gs.foldl (resetStep now pc) acc).1.statusLogMap g.gk = acc.1.statusLogMap g.gk ∧
       (gs.foldl (resetStep now pc) acc).1.commentMap g.gk = acc.1.commentMap g.gk))) := by
  intro gs
  induction gs with
  | nil => intro acc g _ hg; simp at hg
  | cons g₀ gs ih =>
    intro acc g hnd hg
    rw [List.map_cons, List.nodup_cons] at hnd
    rcases List.mem_cons.mp hg with h | h
    · subst h
      have hnotin : ∀ g' ∈ gs, ¬(g.gk = g'.gk) := by
        intro g' hg' he
        have hmm : g'.gk ∈ gs.map (·.gk) := List.mem_map_of_mem (·.gk) hg'
        rw [← he] at hmm
        exact hnd.1 hmm
      have hrest := resetFold_other now pc gs (resetStep now pc acc g) g.gk hnotin
      constructor
      · intro hc
        have hstep : resetStep now pc acc g = (applyReset now acc.1 g.gk, acc.2 ++ [g.gk]) := by
          simp [resetStep, if_pos hc]
        rw [List.foldl_cons, hstep]
        obtain ⟨a₁, a₂, a₃⟩ := applyReset_self now acc.1 g.gk
        rw [hstep] at hrest
        exact ⟨hrest.1.trans a₁, hrest.2.1.trans a₂, hrest.2.2.trans a₃⟩
      · intro hc
        have hstep : resetStep now pc acc g = acc := by
          simp [resetStep, if_neg hc]
        rw [List.foldl_cons, hstep]
        rw [hstep] at hrest
        exact hrest
    · have hne : ¬(g.gk = g₀.gk) := by
        intro he
        have hmm : g.gk ∈ gs.map (·.gk) := List.mem_map_of_mem (·.gk) h
        rw [he] at hmm
        exact hnd.1 hmm
      obtain ⟨s₁, s₂, s₃⟩ := resetStep_other now pc acc g₀ hne
      have := ih (resetStep now pc acc g₀) hnd.2 h
      rw [List.foldl_cons]
      constructor
      · intro hc
        obtain ⟨r₁, r₂, r₃⟩ := this.1 hc
        exact ⟨r₁, by rw [r₂, s₂], by rw [r₃, s₃]⟩
      · intro hc
        obtain ⟨r₁, r₂, r₃⟩ := this.2 hc
        exact ⟨r₁.trans s₁, r₂.trans s₂, r₃.trans s₃⟩

/-! ### Override-loop lemmas (`overrideStep` fold over `repsOf`) -/

theorem keys_upsertRep (m : List (String × Row)) (r : Row) :
    (upsertRep m r).map Prod.fst =
      if rowKey r ∈ m.map Prod.fst then m.map Prod.fst
      else m.map Prod.fst ++ [rowKey r] := by
  cases hf : m.find? (fun p => p.1 = rowKey r) with
  | none =>
    have hnmem : ¬(rowKey r ∈ m.map Prod.fst) := by
      intro hmem
      obtain ⟨p, hp, hpk⟩ := List.mem_map.mp hmem
      have := List.find?_eq_none.mp hf p hp
      simp [hpk] at this
    simp [upsertRep, hf, hnmem]
  | some rep =>
    have hmem : rowKey r ∈ m.map Prod.fst := by
      have hp := List.find?_some hf
      have hpm := List.mem_of_find?_eq_some hf
      simp only [decide_eq_true_eq] at hp
      have := List.mem_map_of_mem Prod.fst hpm
      rw [hp] at this
      exact this
    by_cases hlt : rep.2.dateTimeAdjMs < r.dateTimeAdjMs
    · simp only [upsertRep, hf, if_pos hlt, if_pos hmem, List.map_map]
      congr 1
      funext p
      by_cases hpk : p.1 = rowKey r <;> simp [hpk]
    · simp [upsertRep, hf, hlt, hmem]

theorem nodup_keys_upsertRep {m : List (String × Row)} (r : Row)
    (h : (m.map Prod.fst).Nodup) : ((upsertRep m r).map Prod.fst).Nodup := by
  rw [keys_upsertRep]
  by_cases hmem : rowKey r ∈ m.map Prod.fst
  · simpa [hmem]
  · simpa [hmem, List.nodup_append] using h

theorem nodup_keys_repsOf (rows : List Row) : ((repsOf rows).map Prod.fst).Nodup := by
  suffices h : ∀ (l : List Row) (m : List (String × Row)), (m.map Prod.fst).Nodup →
      ((l.foldl upsertRep m).map Prod.fst).Nodup by
    exact h rows [] (by simp)
  intro l
  induction l with
  | nil => intro m hm; simpa using hm
  | cons r l ih =>
    intro m hm
    exact ih (upsertRep m r) (nodup_keys_upsertRep r hm)

theorem overrideStep_other (acc : (String → Option AlarmStatus) × Store)
    (e : String × Row) {k : String} (h : ¬(k = e.1)) :
    (overrideStep acc e).1 k = acc.1 k ∧
    (overrideStep acc e).2.statusMap k = acc.2.statusMap k := by
  simp [overrideStep, Store.saveStatus, h]

theorem overrideFold_other :
    ∀ (es : List (String × Row)) (acc : (String → Option AlarmStatus) × Store)
      (k : String), (∀ e ∈ es, ¬(k = e.1)) →
    ((es.foldl overrideStep acc).1 k = acc.1 k ∧
     (es.foldl overrideStep acc).2.statusMap k = acc.2.statusMap k) := by
  intro es
  induction es with
  | nil => intro acc k _; simp
  | cons e es ih =>
    intro acc k h
    have he := h e (List.mem_cons_self e es)
    have hrest := ih (overrideStep acc e) k
      (fun e' he' => h e' (List.mem_cons_of_mem e he'))
    obtain ⟨h₁, h₂⟩ := overrideStep_other acc e he
    simp only [List.foldl_cons]
    exact ⟨hrest.1.trans h₁, hrest.2.trans h₂⟩

/-- Per-lineage effect of the whole override loop (keys pairwise distinct):
the derived status is computed from the representative and the *initial*
in-memory/persisted value at that key, then written to both. -/
theorem overrideFold_mem :
    ∀ (es : List (String × Row)) (acc : (String → Option AlarmStatus) × Store)
      {gk : String} {rep : Row},
    (es.map Prod.fst).Nodup → (gk, rep) ∈ es →
    ((es.foldl overrideStep acc).1 gk =
        some (if rep.reconhecido = .sim ∨ rep.descartado = .sim then .concluido
              else (acc.1 gk).getD (acc.2.loadStatus gk)) ∧
     (es.foldl overrideStep acc).2.statusMap gk =
        some (if rep.reconhecido = .sim ∨ rep.descartado = .sim then .concluido
              else (acc.1 gk).getD (acc.2.loadStatus gk))) := by
  intro es
  induction es with
  | nil => intro acc gk rep _ hmem; simp at hmem
  | cons e es ih =>
    intro acc gk rep hnd hmem
    rw [List.map_cons, List.nodup_cons] at hnd
    rcases List.mem_cons.mp hmem with h | h
    · have he : e = (gk, rep) := h.symm
      subst he
      have hnotin : ∀ e' ∈ es, ¬(gk = e'.1) := by
        intro e' he' heq
        have hmm : e'.1 ∈ es.map Prod.fst := List.mem_map_of_mem Prod.fst he'
        rw [← heq] at hmm
        exact hnd.1 hmm
      have hrest := overrideFold_other es (overrideStep acc (gk, rep)) gk hnotin
      have hstep₁ : (overrideStep acc (gk, rep)).1 gk =
          some (if rep.reconhecido = .sim ∨ rep.descartado = .sim then .concluido
                else (acc.1 gk).getD (acc.2.loadStatus gk)) := by
        simp [overrideStep]
      have hstep₂ : (overrideStep acc (gk, rep)).2.statusMap gk =
          some (if rep.reconhecido = .sim ∨ rep.descartado = .sim then .concluido
                else (acc.1 gk).getD (acc.2.loadStatus gk)) := by
        simp [overrideStep, Store.saveStatus]
      simp only [List.foldl_cons]
      exact ⟨hrest.1.trans hstep₁, hrest.2.trans hstep₂⟩
    · have hne : ¬(gk = e.1) := by
        intro heq
        have hmm : (gk, rep).1 ∈ es.map Prod.fst := List.mem_map_of_mem Prod.fst h
        rw [heq] at hmm
        exact hnd.1 hmm
      obtain ⟨s₁, s₂⟩ := overrideStep_other acc e hne
      have hrec := ih (overrideStep acc e) hnd.2 h
      rw [List.foldl_cons]
      have hload : (overrideStep acc e).2.loadStatus gk = acc.2.loadStatus gk := by
        simp [Store.loadStatus, s₂]
      rw [hrec.1, hrec.2, s₁, hload]
      exact ⟨rfl, rfl⟩

/-! ### History-merger lemmas -/

theorem pairwise_ne_of_nodup_ts : ∀ {l : List UnifiedHistEntry},
    (l.map (·.ts)).Nodup → l.Pairwise (fun a b => a.ts ≠ b.ts) := by
  intro l
  induction l with
  | nil => intro _; exact List.Pairwise.nil
  | cons a l ih =>
    intro h
    rw [List.map_cons, List.nodup_cons] at h
    refine List.Pairwise.cons ?_ (ih h.2)
    intro b hb he
    exact h.1 (he ▸ List.mem_map_of_mem (·.ts) hb)

/-- Two sorted merges of the same multiset with pairwise-distinct timestamps
are equal. -/
theorem hist_eq_of_perm_of_sorted {l₁ l₂ : List UnifiedHistEntry}
    (hp : l₁.Perm l₂) (hs₁ : List.Sorted histLe l₁) (hs₂ : List.Sorted histLe l₂)
    (hnd : (l₁.map (·.ts)).Nodup) : l₁ = l₂ := by
  have hnd₂ : (l₂.map (·.ts)).Nodup := ((hp.map (·.ts)).nodup_iff).mp hnd
  have hlt₁ : l₁.Pairwise (fun a b => a.ts < b.ts) :=
    (hs₁.and (pairwise_ne_of_nodup_ts hnd)).imp
      (fun hab => lt_of_le_of_ne hab.1 hab.2)
  have hlt₂ : l₂.Pairwise (fun a b => a.ts < b.ts) :=
    (hs₂.and (pairwise_ne_of_nodup_ts hnd₂)).imp
      (fun hab => lt_of_le_of_ne hab.1 hab.2)
  haveI : IsAntisymm UnifiedHistEntry (fun a b => a.ts < b.ts) :=
    ⟨fun _ _ h₁ h₂ => absurd h₂ (Nat.lt_asymm h₁)⟩
  exact List.eq_of_perm_of_sorted hp hlt₁ hlt₂

/-! ### Fan-out collector lemmas -/

theorem mem_collectErrors_key {outcome : BackendCfg → SourceOutcome}
    {l : List BackendCfg} {q : String × String}
    (h : q ∈ collectErrors outcome l) : q.1 ∈ l.map (·.id) := by
  obtain ⟨b, hb, hf⟩ := List.mem_filterMap.mp h
  cases ho : outcome b <;> rw [ho] at hf
  · simp at hf
  · simp only [Option.some.injEq] at hf
    rw [← hf]
    exact List.mem_map_of_mem (·.id) hb

theorem collectErrors_spec (outcome : BackendCfg → SourceOutcome) :
    ∀ (l : List BackendCfg), (l.map (·.id)).Nodup → ∀ b ∈ l,
      (∀ e, outcome b = .failure e →
        ((collectErrors outcome l).find? (fun q => q.1 = b.id) = some (b.id, e) ∧
         (collectErrors outcome l).countP (fun q => q.1 = b.id) = 1)) ∧
      (∀ items, outcome b = .success items →
        ((collectErrors outcome l).find? (fun q => q.1 = b.id) = none ∧
         (collectErrors outcome l).countP (fun q => q.1 = b.id) = 0)) := by
  intro l
  induction l with
  | nil => intro _ b hb; simp at hb
  | cons b₀ l ih =>
    intro hnd b hb
    rw [List.map_cons, List.nodup_cons] at hnd
    have hrest_keys : ∀ q ∈ collectErrors outcome l, q.1 ∈ l.map (·.id) :=
      fun q hq => mem_collectErrors_key hq
    rcases List.mem_cons.mp hb with h | h
    · subst h
      have hnotin : ∀ q ∈ collectErrors outcome l, ¬((fun q => decide (q.1 = b.id)) q = true) := by
        intro q hq hd
        rw [decide_eq_true_eq] at hd
        exact hnd.1 (hd ▸ hrest_keys q hq)
      constructor
      · intro e he
        have hcons : collectErrors outcome (b :: l) =
            (b.id, e) :: collectErrors outcome l := by
          simp [collectErrors, List.filterMap_cons, he]
        rw [hcons]
        constructor
        · simp [List.find?_cons]
        · rw [List.countP_cons]
          rw [List.countP_eq_zero.mpr hnotin]
          simp
      · intro items hi
        have hcons : collectErrors outcome (b :: l) = collectErrors outcome l := by
          simp [collectErrors, List.filterMap_cons, hi]
        rw [hcons]
        constructor
        · exact List.find?_eq_none.mpr hnotin
        · exact List.countP_eq_zero.mpr hnotin
    · have hbid : ¬(b₀.id = b.id) := by
        intro he
        exact hnd.1 (he ▸ List.mem_map_of_mem (·.id) h)
      have hih := ih hnd.2 b h
      cases ho₀ : outcome b₀ with
      | success items₀ =>
        have hcons : collectErrors outcome (b₀ :: l) = collectErrors outcome l := by
          simp [collectErrors, List.filterMap_cons, ho₀]
        rw [hcons]
        exact hih
      | failure e₀ =>
        have hcons : collectErrors outcome (b₀ :: l) =
            (b₀.id, e₀) :: collectErrors outcome l := by
          simp [collectErrors, List.filterMap_cons, ho₀]
        rw [hcons]
        constructor
        · intro e he
          obtain ⟨hf, hc⟩ := hih.1 e he
          constructor
          · rw [List.find?_cons]
            simp only [hbid, decide_eq_true_eq, if_neg]
            exact hf
          · rw [List.countP_cons]
            simp [hbid, hc]
        · intro items hi
          obtain ⟨hf, hc⟩ := hih.2 items hi
          constructor
          · rw [List.find?_cons]
            simp only [hbid, decide_eq_true_eq, if_neg]
            exact hf
          · rw [List.countP_cons]
            simp [hbid, hc]

theorem fetchData_rows (env : Env) (outcome : BackendCfg → SourceOutcome)
    (backends : List BackendCfg) (statuses : String → Option AlarmStatus)
    (st : Store) (pc : List (String × Nat)) :
    (fetchData env outcome backends statuses st pc).rows =
      collectRows env outcome (backends.filter (·.enabled)) := by
  cases henabled : backends.filter (·.enabled) with
  | nil => simp [fetchData, henabled, collectRows]
  | cons b bs => simp [fetchData, henabled]

theorem fetchData_errors (env : Env) (outcome : BackendCfg → SourceOutcome)
    (backends : List BackendCfg) (statuses : String → Option AlarmStatus)
    (st : Store) (pc : List (String × Nat)) :
    (fetchData env outcome backends statuses st pc).errors =
      collectErrors outcome (backends.filter (·.enabled)) := by
  cases henabled : backends.filter (·.enabled) with
  | nil => simp [fetchData, henabled, collectErrors]
  | cons b bs => simp [fetchData, henabled]

/-! ### Comment-submission lemmas -/

theorem string_pos_iff_ne_empty (s : String) : 0 < s.length ↔ s ≠ "" := by
  constructor
  · intro h he
    rw [he] at h
    simp at h
  · intro h
    cases s with
    | mk data =>
      cases data with
      | nil => exact absurd rfl h
      | cons c cs => simp [String.length]

/-- `sendComment` writes neither the persisted status nor the status log of
any lineage key. -/
theorem sendComment_preserves_status (now : Nat) (activeGk : Option String)
    (draft : String) (rows : List Row) (backends : List BackendCfg)
    (st : Store) (unified : List UnifiedHistEntry) :
    (sendComment now activeGk draft rows backends st unified).store.statusMap =
      st.statusMap ∧
    (sendComment now activeGk draft rows backends st unified).store.statusLogMap =
      st.statusLogMap := by
  cases activeGk with
  | none => exact ⟨rfl, rfl⟩
  | some gk₀ =>
    by_cases htrim : jsTrim draft = ""
    · constructor <;> simp [sendComment, htrim]
    · constructor <;> simp [sendComment, htrim, Store.saveCommentList]

/-- A non-empty (after trimming) comment appends exactly one comment entry to
the active lineage's comment log. -/
theorem sendComment_appends (now : Nat) (gk : String) (draft : String)
    (rows : List Row) (backends : List BackendCfg) (st : Store)
    (unified : List UnifiedHistEntry) (htrim : jsTrim draft ≠ "") :
    (sendComment now (some gk) draft rows backends st unified).store.commentMap gk =
      st.commentMap gk ++ [⟨now, jsTrim draft⟩] := by
  simp [sendComment, htrim, Store.saveCommentList, Store.loadCommentList]

/-- An all-whitespace draft makes `sendComment` a no-op on the store. -/
theorem sendComment_noop (now : Nat) (gk : String) (draft : String)
    (rows : List Row) (backends : List BackendCfg) (st : Store)
    (unified : List UnifiedHistEntry) (htrim : jsTrim draft = "") :
    (sendComment now (some gk) draft rows backends st unified).store = st := by
  simp [sendComment, htrim]

/-! ### Claim theorems -/

/-- **C4**: for every list of occurrence rows, the grouper partitions the rows
by the exact (case-sensitive) lineage key `server::site::point`: group keys are
pairwise distinct, every row's key is represented, each group's history is
exactly the rows carrying its key (as a multiset) ordered newest-first by
adjusted timestamp, the representative is a member of the group of maximal
adjusted timestamp (ties resolved deterministically by the grouping function),
and the group count equals the history length. -/
theorem claim_C4_lineage_grouper (l : List Row) :
    ((groupedOf l).map (·.gk)).Nodup ∧
    (∀ r ∈ l, ∃ G ∈ groupedOf l, G.gk = rowKey r) ∧
    (∀ G ∈ groupedOf l,
      G.items.Perm (l.filter (fun r => decide (rowKey r = G.gk))) ∧
      (∀ i ∈ G.items, rowKey i = G.gk) ∧
      G.row ∈ G.items ∧
      (∀ i ∈ G.items, i.dateTimeAdjMs ≤ G.row.dateTimeAdjMs) ∧
      List.Sorted rowGe G.items ∧
      G.groupCount = G.items.length) := by
  refine ⟨nodup_keys_groupedOf l, ?_, ?_⟩
  · intro r hr
    exact groupedOf_covers hr
  · intro G hG
    exact groupedOf_mem_spec hG

/-- Witness for C4 on `[rowA, rowB, rowC]`: the lineage `S::x::p` groups the
two rows sharing that key, newest (`rowB`, timestamp 9) first. -/
theorem claim_C4_witness :
    ((⟨rowB, 2, [rowB, rowA], "S::x::p"⟩ : GroupedRow) ∈ groupedOf [rowA, rowB, rowC]) ∧
    (List.Sorted rowGe [rowB, rowA] ∧
     (∀ i ∈ ([rowB, rowA] : List Row), i.dateTimeAdjMs ≤ rowB.dateTimeAdjMs) ∧
     (2 : Nat) = ([rowB, rowA] : List Row).length) := by
  have hmem : (⟨rowB, 2, [rowB, rowA], "S::x::p"⟩ : GroupedRow) ∈
      groupedOf [rowA, rowB, rowC] := by decide
  have h := (claim_C4_lineage_grouper [rowA, rowB, rowC]).2.2 _ hmem
  exact ⟨hmem, h.2.2.2.2.1, h.2.2.2.1, h.2.2.2.2.2⟩

/-- **C5**: `makeGroupsRaw` is deterministic and order-independent with respect
to its result set: for any two permuted input lists (the same list twice is the
reflexive case), the produced key multisets are permutations of one another,
and every group of the first run has a group of the second run with the same
key, the same member multiset, and the same occurrence count. -/
theorem claim_C5_grouping_order_independent (l₁ l₂ : List Row) (hp : l₁.Perm l₂) :
    ((makeGroupsRaw l₁).map (·.gk)).Perm ((makeGroupsRaw l₂).map (·.gk)) ∧
    ∀ g₁ ∈ makeGroupsRaw l₁, ∃ g₂ ∈ makeGroupsRaw l₂,
      g₂.gk = g₁.gk ∧ g₁.items.Perm g₂.items ∧
      g₁.items.length = g₂.items.length := by
  constructor
  · refine (List.perm_ext_iff_of_nodup (nodup_keys_makeGroupsRaw l₁)
      (nodup_keys_makeGroupsRaw l₂)).mpr ?_
    intro k
    rw [mem_keys_makeGroupsRaw, mem_keys_makeGroupsRaw]
    exact ⟨fun ⟨r, hr, hk⟩ => ⟨r, hp.mem_iff.mp hr, hk⟩,
           fun ⟨r, hr, hk⟩ => ⟨r, hp.mem_iff.mpr hr, hk⟩⟩
  · intro g₁ hg₁
    obtain ⟨hitems₁, hrep₁, _⟩ := makeGroupsRaw_mem_spec hg₁
    have hkey : g₁.gk ∈ (makeGroupsRaw l₁).map (·.gk) :=
      List.mem_map_of_mem (·.gk) hg₁
    obtain ⟨r, hr, hk⟩ := mem_keys_makeGroupsRaw.mp hkey
    obtain ⟨g₂, hg₂, hk₂⟩ := makeGroupsRaw_covers (hp.mem_iff.mp hr)
    obtain ⟨hitems₂, _, _⟩ := makeGroupsRaw_mem_spec hg₂
    have hkk : g₂.gk = g₁.gk := hk₂.trans hk
    refine ⟨g₂, hg₂, hkk, ?_, ?_⟩
    · rw [hitems₁, hitems₂, hkk]
      exact hp.filter _
    · rw [hitems₁, hitems₂, hkk]
      exact (hp.filter _).length_eq

/-- Witness for C5: `[rowA, rowB, rowC]` against its rotation. -/
theorem claim_C5_witness :
    ((makeGroupsRaw [rowA, rowB, rowC]).map (·.gk)).Perm
      ((makeGroupsRaw [rowC, rowA, rowB]).map (·.gk)) ∧
    ∀ g₁ ∈ makeGroupsRaw [rowA, rowB, rowC],
      ∃ g₂ ∈ makeGroupsRaw [rowC, rowA, rowB],
        g₂.gk = g₁.gk ∧ g₁.items.Perm g₂.items ∧
        g₁.items.length = g₂.items.length :=
  claim_C5_grouping_order_independent [rowA, rowB, rowC] [rowC, rowA, rowB]
    (by decide)

/-- **C6**: the history merger is a pure function of the two logs' contents
producing a single ascending-timestamp sequence: the merge of any comment log
and status log is sorted by timestamp, contains exactly the union of the two
mapped logs, and — when the timestamps are pairwise distinct — is invariant
under any reordering (insertion order) of either source log. -/
theorem claim_C6_history_merger (c₁ c₂ : List CommentEntry)
    (s₁ s₂ : List StatusEntry) (hc : c₁.Perm c₂) (hs : s₁.Perm s₂)
    (hnd : ((commentEntriesOf c₁ ++ statusEntriesOf s₁).map (·.ts)).Nodup) :
    List.Sorted histLe (rebuildUnified c₁ s₁) ∧
    (rebuildUnified c₁ s₁).Perm (commentEntriesOf c₁ ++ statusEntriesOf s₁) ∧
    rebuildUnified c₁ s₁ = rebuildUnified c₂ s₂ := by
  have hsort₁ : List.Sorted histLe (rebuildUnified c₁ s₁) :=
    List.sorted_insertionSort histLe _
  have hsort₂ : List.Sorted histLe (rebuildUnified c₂ s₂) :=
    List.sorted_insertionSort histLe _
  have hperm₁ : (rebuildUnified c₁ s₁).Perm
      (commentEntriesOf c₁ ++ statusEntriesOf s₁) :=
    List.perm_insertionSort histLe _
  have hperm₂ : (rebuildUnified c₂ s₂).Perm
      (commentEntriesOf c₂ ++ statusEntriesOf s₂) :=
    List.perm_insertionSort histLe _
  have hsrc : (commentEntriesOf c₁ ++ statusEntriesOf s₁).Perm
      (commentEntriesOf c₂ ++ statusEntriesOf s₂) :=
    List.Perm.append (hc.map _) (hs.map _)
  have hpp : (rebuildUnified c₁ s₁).Perm (rebuildUnified c₂ s₂) :=
    (hperm₁.trans hsrc).trans hperm₂.symm
  have hnd₁ : ((rebuildUnified c₁ s₁).map (·.ts)).Nodup :=
    ((hperm₁.map (·.ts)).nodup_iff).mpr hnd
  exact ⟨hsort₁, hperm₁, hist_eq_of_perm_of_sorted hpp hsort₁ hsort₂ hnd₁⟩

/-- Witness for C6: comments at timestamps 10 and 30 and one status entry at
20 merge to the `[10, 20, 30]` sequence, whatever the comment log's insertion
order. -/
theorem claim_C6_witness :
    (List.Sorted histLe
      (rebuildUnified [⟨10, "a"⟩, ⟨30, "b"⟩] [⟨20, .tratado, some .user⟩]) ∧
     (rebuildUnified [⟨10, "a"⟩, ⟨30, "b"⟩] [⟨20, .tratado, some .user⟩]).Perm
       (commentEntriesOf [⟨10, "a"⟩, ⟨30, "b"⟩] ++
        statusEntriesOf [⟨20, .tratado, some .user⟩]) ∧
     rebuildUnified [⟨10, "a"⟩, ⟨30, "b"⟩] [⟨20, .tratado, some .user⟩] =
       rebuildUnified [⟨30, "b"⟩, ⟨10, "a"⟩] [⟨20, .tratado, some .user⟩]) ∧
    (rebuildUnified [⟨10, "a"⟩, ⟨30, "b"⟩] [⟨20, .tratado, some .user⟩]).map (·.ts)
      = [10, 20, 30] := by
  refine ⟨claim_C6_history_merger _ _ _ _ (by decide) (by decide) (by decide), ?_⟩
  decide

/-- **C1**: in a poll cycle, for every lineage group of the current row union,
with previous count `p` (0 when absent from the previous-cycle map) and
current count `c`, the new-occurrence reset fires iff `c > p` and `p > 0`;
when it fires, the persisted status of that lineage key becomes `nao_tratado`,
exactly one status-log entry `{now, nao_tratado, auto_new_alarm}` is appended,
and exactly one automatic comment entry describing the reset is appended;
otherwise — in particular on a first sighting (`p = 0` or key absent) — none
of the three stores of that lineage is touched. -/
theorem claim_C1_new_occurrence_reset (env : Env)
    (outcome : BackendCfg → SourceOutcome) (backends : List BackendCfg)
    (statuses : String → Option AlarmStatus) (st : Store)
    (pc : List (String × Nat)) (g : RawGroup)
    (hg : g ∈ makeGroupsRaw (collectRows env outcome (backends.filter (·.enabled)))) :
    ((((pc.find? (fun q => q.1 = g.gk)).map (·.2)).getD 0 < g.items.length ∧
      0 < ((pc.find? (fun q => q.1 = g.gk)).map (·.2)).getD 0) →
      ((fetchData env outcome backends statuses st pc).store.statusMap g.gk =
          some .nao_tratado ∧
       (fetchData env outcome backends statuses st pc).store.statusLogMap g.gk =
          st.statusLogMap g.gk ++ [⟨env.now, .nao_tratado, some .auto_new_alarm⟩] ∧
       (fetchData env outcome backends statuses st pc).store.commentMap g.gk =
          st.commentMap g.gk ++ [⟨env.now, autoResetText⟩])) ∧
    (¬(((pc.find? (fun q => q.1 = g.gk)).map (·.2)).getD 0 < g.items.length ∧
       0 < ((pc.find? (fun q => q.1 = g.gk)).map (·.2)).getD 0) →
      ((fetchData env outcome backends statuses st pc).store.statusMap g.gk =
          st.statusMap g.gk ∧
       (fetchData env outcome backends statuses st pc).store.statusLogMap g.gk =
          st.statusLogMap g.gk ∧
       (fetchData env outcome backends statuses st pc).store.commentMap g.gk =
          st.commentMap g.gk)) := by
  cases henabled : backends.filter (·.enabled) with
  | nil =>
    rw [henabled] at hg
    simp [collectRows, makeGroupsRaw] at hg
  | cons b bs =>
    rw [henabled] at hg
    have hstore : (fetchData env outcome backends statuses st pc).store =
        ((makeGroupsRaw (collectRows env outcome (b :: bs))).foldl
          (resetStep env.now pc) (st, [])).1 := by
      simp [fetchData, henabled]
    rw [hstore]
    exact resetFold_mem _ (st, []) (nodup_keys_makeGroupsRaw _) hg

/-- Witness for C1: one enabled source returns two occurrences of lineage
`S::site::pt` whose previous-cycle count was 1, so `c = 2 > p = 1 > 0` and the
reset fires: status forced to `nao_tratado`, one auto status-log entry and one
auto comment appended. -/
theorem claim_C1_witness :
    (fetchData envOne outcomeBoth [backendOne] (fun _ => none) storeEmpty
        [("S::site::pt", 1)]).store.statusMap "S::site::pt" =
      some .nao_tratado ∧
    (fetchData envOne outcomeBoth [backendOne] (fun _ => none) storeEmpty
        [("S::site::pt", 1)]).store.statusLogMap "S::site::pt" =
      storeEmpty.statusLogMap "S::site::pt" ++
        [⟨100, .nao_tratado, some .auto_new_alarm⟩] ∧
    (fetchData envOne outcomeBoth [backendOne] (fun _ => none) storeEmpty
        [("S::site::pt", 1)]).store.commentMap "S::site::pt" =
      storeEmpty.commentMap "S::site::pt" ++ [⟨100, autoResetText⟩] :=
  (claim_C1_new_occurrence_reset envOne outcomeBoth [backendOne] (fun _ => none)
    storeEmpty [("S::site::pt", 1)] groupOne (by decide)).1 (by decide)

/-- **C2**: whenever a lineage's representative occurrence is acknowledged or
discarded upstream, the status the engine computes for display is `concluido`
— regardless of the in-memory map or the stored value — and the bulk
re-derivation effect over the current rows both records and persists
`concluido` for that lineage key, regardless of any concurrently reset or
locally stored status. -/
theorem claim_C2_upstream_override :
    (∀ (statuses : String → Option AlarmStatus) (st : Store) (G : GroupedRow),
      (G.row.reconhecido = .sim ∨ G.row.descartado = .sim) →
      computedStatus statuses st G = .concluido) ∧
    (∀ (rows : List Row) (statuses : String → Option AlarmStatus) (st : Store)
      (gk : String) (rep : Row),
      (gk, rep) ∈ repsOf rows →
      (rep.reconhecido = .sim ∨ rep.descartado = .sim) →
      ((applyRowsEffect rows statuses st).1 gk = some .concluido ∧
       (applyRowsEffect rows statuses st).2.statusMap gk = some .concluido)) := by
  constructor
  · intro statuses st G h
    simp [computedStatus, h]
  · intro rows statuses st gk rep hmem hflag
    have hne : rows ≠ [] := by
      intro h
      rw [h] at hmem
      simp [repsOf] at hmem
    have hfold := overrideFold_mem (repsOf rows) (statuses, st)
      (nodup_keys_repsOf rows) hmem
    rw [if_pos hflag] at hfold
    have happly : applyRowsEffect rows statuses st =
        (repsOf rows).foldl overrideStep (statuses, st) := by
      cases rows with
      | nil => exact absurd rfl hne
      | cons r rs => simp [applyRowsEffect]
    rw [happly]
    exact hfold

/-- Witness for C2: `rowC` is acknowledged (`reconhecido = sim`), so both the
displayed status and the persisted status become `concluido`. -/
theorem claim_C2_witness :
    computedStatus (fun _ => none) storeEmpty ⟨rowC, 1, [rowC], "S::y::q"⟩ =
      .concluido ∧
    (applyRowsEffect [rowC] (fun _ => none) storeEmpty).1 "S::y::q" =
      some .concluido ∧
    (applyRowsEffect [rowC] (fun _ => none) storeEmpty).2.statusMap "S::y::q" =
      some .concluido := by
  refine ⟨claim_C2_upstream_override.1 (fun _ => none) storeEmpty
    ⟨rowC, 1, [rowC], "S::y::q"⟩ (Or.inl (by decide)), ?_⟩
  exact claim_C2_upstream_override.2 [rowC] (fun _ => none) storeEmpty
    "S::y::q" rowC (by decide) (Or.inl (by decide))

/-- **C7**: the fan-out collector degrades per source: the produced row list
is exactly the concatenation, in enabled-source order, of the successful
sources' mapped rows; the failure map is exactly one `(id, message)` entry per
failed source; and — when enabled source ids are distinct — looking up a
failed source's id yields its message, looking up a successful source's id
yields nothing, and each failed source contributes exactly one entry.  (In
the embedding `fetchData` is a total function: no per-source failure escapes
the cycle.) -/
theorem claim_C7_partial_failure (env : Env)
    (outcome : BackendCfg → SourceOutcome) (backends : List BackendCfg)
    (statuses : String → Option AlarmStatus) (st : Store)
    (pc : List (String × Nat)) :
    (fetchData env outcome backends statuses st pc).rows =
      (backends.filter (·.enabled)).flatMap (fun b =>
        match outcome b with
        | .success items => items.map (rowOfDTO env b)
        | .failure _ => []) ∧
    (fetchData env outcome backends statuses st pc).errors =
      (backends.filter (·.enabled)).filterMap (fun b =>
        match outcome b with
        | .failure e => some (b.id, e)
        | .success _ => none) ∧
    (((backends.filter (·.enabled)).map (·.id)).Nodup →
      ∀ b ∈ backends.filter (·.enabled),
        (∀ e, outcome b = .failure e →
          ((fetchData env outcome backends statuses st pc).errors.find?
              (fun q => q.1 = b.id) = some (b.id, e) ∧
           (fetchData env outcome backends statuses st pc).errors.countP
              (fun q => q.1 = b.id) = 1)) ∧
        (∀ items, outcome b = .success items →
          ((fetchData env outcome backends statuses st pc).errors.find?
              (fun q => q.1 = b.id) = none ∧
           (fetchData env outcome backends statuses st pc).errors.countP
              (fun q => q.1 = b.id) = 0))) := by
  refine ⟨?_, ?_, ?_⟩
  · rw [fetchData_rows]
    rfl
  · rw [fetchData_errors]
    rfl
  · intro hnd b hb
    rw [fetchData_errors]
    exact collectErrors_spec outcome (backends.filter (·.enabled)) hnd b hb

/-- Witness for C7: of two enabled sources, `backendBad` fails
authentication; the failure map holds exactly its one entry and none for the
successful source, and the row list is the successful source's rows. -/
theorem claim_C7_witness :
    (fetchData envOne outcomeMixed [backendOne, backendBad] (fun _ => none)
        storeEmpty []).errors.find? (fun q => q.1 = "bad") =
      some ("bad", "auth") ∧
    (fetchData envOne outcomeMixed [backendOne, backendBad] (fun _ => none)
        storeEmpty []).errors.countP (fun q => q.1 = "bad") = 1 ∧
    (fetchData envOne outcomeMixed [backendOne, backendBad] (fun _ => none)
        storeEmpty []).errors.find? (fun q => q.1 = "b") = none ∧
    (fetchData envOne outcomeMixed [backendOne, backendBad] (fun _ => none)
        storeEmpty []).rows = [dtoOne].map (rowOfDTO envOne backendOne) := by
  have h := claim_C7_partial_failure envOne outcomeMixed [backendOne, backendBad]
    (fun _ => none) storeEmpty []
  have hbad := (h.2.2 (by decide) backendBad (by decide)).1 "auth" (by decide)
  have hok := (h.2.2 (by decide) backendOne (by decide)).2 [dtoOne] (by decide)
  refine ⟨hbad.1, hbad.2, hok.1, ?_⟩
  rw [h.1]
  decide

/-- **C8**: with zero enabled sources, a refresh cycle short-circuits: the row
list and failure map come out empty, the countdown is reset to 60, no network
call is issued, and neither the in-memory statuses, the persisted store, nor
the previous-cycle counts map is touched. -/
theorem claim_C8_zero_sources (env : Env)
    (outcome : BackendCfg → SourceOutcome) (backends : List BackendCfg)
    (statuses : String → Option AlarmStatus) (st : Store)
    (pc : List (String × Nat)) (h : backends.filter (·.enabled) = []) :
    (fetchData env outcome backends statuses st pc).rows = [] ∧
    (fetchData env outcome backends statuses st pc).errors = [] ∧
    (fetchData env outcome backends statuses st pc).calls = [] ∧
    (fetchData env outcome backends statuses st pc).secondsLeft = 60 ∧
    (fetchData env outcome backends statuses st pc).statuses = statuses ∧
    (fetchData env outcome backends statuses st pc).store = st ∧
    (fetchData env outcome backends statuses st pc).prevCounts = pc := by
  simp [fetchData, h]

/-- Witness for C8: a single disabled source — the cycle returns empty data,
issues no call, and leaves every piece of state alone. -/
theorem claim_C8_witness :
    (fetchData envOne outcomeBoth [backendOff] (fun _ => none) storeEmpty
        [("k", 3)]).rows = [] ∧
    (fetchData envOne outcomeBoth [backendOff] (fun _ => none) storeEmpty
        [("k", 3)]).errors = [] ∧
    (fetchData envOne outcomeBoth [backendOff] (fun _ => none) storeEmpty
        [("k", 3)]).calls = [] ∧
    (fetchData envOne outcomeBoth [backendOff] (fun _ => none) storeEmpty
        [("k", 3)]).secondsLeft = 60 ∧
    (fetchData envOne outcomeBoth [backendOff] (fun _ => none) storeEmpty
        [("k", 3)]).statuses = (fun _ => none) ∧
    (fetchData envOne outcomeBoth [backendOff] (fun _ => none) storeEmpty
        [("k", 3)]).store = storeEmpty ∧
    (fetchData envOne outcomeBoth [backendOff] (fun _ => none) storeEmpty
        [("k", 3)]).prevCounts = [("k", 3)] :=
  claim_C8_zero_sources envOne outcomeBoth [backendOff] (fun _ => none)
    storeEmpty [("k", 3)] (by decide)

/-- **C3 (counterexample)**: the claim asserts that submitting a non-empty
comment on a lineage in status `nao_tratado` transitions it to `tratado`.  In
the code `sendComment` only appends the comment: at a concrete store holding
`nao_tratado` for the lineage, the status after submission is still
`nao_tratado`, not `tratado`. -/
theorem claim_C3_counterexample :
    (sendComment 5 (some "S::a::b") "hello" [] []
        ⟨fun k => if k = "S::a::b" then some .nao_tratado else none,
         fun _ => [], fun _ => []⟩ []).store.statusMap "S::a::b" =
      some .nao_tratado ∧
    ¬((sendComment 5 (some "S::a::b") "hello" [] []
        ⟨fun k => if k = "S::a::b" then some .nao_tratado else none,
         fun _ => [], fun _ => []⟩ []).store.statusMap "S::a::b" =
      some .tratado) := by
  constructor <;> decide

/-- **C3 (amended)**: submitting a comment never changes the lineage's status
— persisted status map and status log are untouched for every current status
(`concluido` included); a non-empty comment appends exactly one comment entry
to the lineage's comment log, and an all-whitespace draft changes nothing. -/
theorem claim_C3_comment_amended (now : Nat) (activeGk : Option String)
    (draft : String) (rows : List Row) (backends : List BackendCfg)
    (st : Store) (unified : List UnifiedHistEntry) :
    ((sendComment now activeGk draft rows backends st unified).store.statusMap =
        st.statusMap ∧
     (sendComment now activeGk draft rows backends st unified).store.statusLogMap =
        st.statusLogMap) ∧
    (∀ gk, activeGk = some gk → jsTrim draft ≠ "" →
      (sendComment now activeGk draft rows backends st unified).store.commentMap gk =
        st.commentMap gk ++ [⟨now, jsTrim draft⟩]) ∧
    (∀ gk, activeGk = some gk → jsTrim draft = "" →
      (sendComment now activeGk draft rows backends st unified).store = st) := by
  refine ⟨sendComment_preserves_status now activeGk draft rows backends st unified,
    ?_, ?_⟩
  · intro gk hgk htrim
    subst hgk
    exact sendComment_appends now gk draft rows backends st unified htrim
  · intro gk hgk htrim
    subst hgk
    exact sendComment_noop now gk draft rows backends st unified htrim

/-- Witness for the amended C3: submitting `" hi "` on an empty store leaves
the status map untouched and appends the trimmed comment. -/
theorem claim_C3_witness :
    (sendComment 7 (some "S::a::b") " hi " [] [] storeEmpty []).store.statusMap =
      storeEmpty.statusMap ∧
    (sendComment 7 (some "S::a::b") " hi " [] [] storeEmpty []).store.commentMap
        "S::a::b" = storeEmpty.commentMap "S::a::b" ++ [⟨7, jsTrim " hi "⟩] :=
  ⟨(claim_C3_comment_amended 7 (some "S::a::b") " hi " [] [] storeEmpty []).1.1,
   (claim_C3_comment_amended 7 (some "S::a::b") " hi " [] [] storeEmpty []).2.1
     "S::a::b" rfl (by decide)⟩

/-- **C9**: the mirror notifier fires iff the comment is non-empty after
trimming or the status is one of `tratado`, `concluido`, `oportunidade`; with
`nao_tratado` and an all-whitespace comment nothing is sent; when it fires it
targets exactly the enabled sources; and the notifier path never alters the
locally persisted status or status log (in the embedding `persistIfRelevant`
returns only the attempted payloads — send outcomes do not appear at all,
modelling that per-source errors are swallowed). -/
theorem claim_C9_mirror_notifier :
    (∀ (s : AlarmStatus) (t : String),
      shouldPersist s t = true ↔
        (jsTrim t ≠ "" ∨ s = .tratado ∨ s = .concluido ∨ s = .oportunidade)) ∧
    (∀ (row : Option Row) (backends : List BackendCfg) (t : String),
      jsTrim t = "" → persistIfRelevant row .nao_tratado t backends = []) ∧
    (∀ (r : Row) (backends : List BackendCfg) (s : AlarmStatus) (t : String),
      shouldPersist s t = true →
      persistIfRelevant (some r) s t backends =
        (backends.filter (·.enabled)).map (fun _b =>
          ⟨r.id, r.server, r.site, r.point, s, t, r.dateTimeISO⟩)) ∧
    (∀ (now : Nat) (activeGk : Option String) (draft : String)
      (rows : List Row) (backends : List BackendCfg) (st : Store)
      (unified : List UnifiedHistEntry),
      (sendComment now activeGk draft rows backends st unified).store.statusMap =
        st.statusMap ∧
      (sendComment now activeGk draft rows backends st unified).store.statusLogMap =
        st.statusLogMap) := by
  refine ⟨?_, ?_, ?_, sendComment_preserves_status⟩
  · intro s t
    have hlen : ((jsTrim t).length > 0) ↔ jsTrim t ≠ "" :=
      string_pos_iff_ne_empty (jsTrim t)
    have htne : jsTrim t ≠ "" → t ≠ "" := by
      intro h he
      rw [he] at h
      exact h rfl
    constructor
    · intro h
      have h' : (¬t = "" ∧ 0 < (jsTrim t).length) ∨
          ((s = .tratado ∨ s = .concluido) ∨ s = .oportunidade) := by
        simpa [shouldPersist] using h
      rcases h' with ⟨_, h₂⟩ | (h' | h') | h'
      · exact Or.inl (hlen.mp h₂)
      · exact Or.inr (Or.inl h')
      · exact Or.inr (Or.inr (Or.inl h'))
      · exact Or.inr (Or.inr (Or.inr h'))
    · intro h
      rcases h with h | h | h | h
      · have h₁ : t ≠ "" := htne h
        simp [shouldPersist, h₁, hlen.mpr h]
      · simp [shouldPersist, h]
      · simp [shouldPersist, h]
      · simp [shouldPersist, h]
  · intro row backends t htrim
    cases row with
    | none => rfl
    | some r =>
      have hsp : shouldPersist .nao_tratado t = false := by
        have hnot : ¬(0 < (jsTrim t).length) := by
          rw [string_pos_iff_ne_empty]
          simpa using htrim
        simp [shouldPersist, hnot]
      simp [persistIfRelevant, hsp]
  · intro r backends s t hsp
    simp [persistIfRelevant, hsp]

/-- Witness for C9: with `nao_tratado` and the all-whitespace comment `"  "`
nothing is sent; with status `tratado` and empty comment a payload goes to
the single enabled source. -/
theorem claim_C9_witness :
    (shouldPersist .nao_tratado "  " = true ↔
      (jsTrim "  " ≠ "" ∨ (AlarmStatus.nao_tratado = .tratado ∨
        AlarmStatus.nao_tratado = .concluido ∨
        AlarmStatus.nao_tratado = .oportunidade))) ∧
    persistIfRelevant (some rowC) .nao_tratado "  " [backendOne, backendOff] = [] ∧
    persistIfRelevant (some rowC) .tratado "" [backendOne, backendOff] =
      ([backendOne, backendOff].filter (·.enabled)).map (fun _b =>
        ⟨rowC.id, rowC.server, rowC.site, rowC.point, .tratado, "", rowC.dateTimeISO⟩) := by
  refine ⟨claim_C9_mirror_notifier.1 .nao_tratado "  ", ?_, ?_⟩
  · exact claim_C9_mirror_notifier.2.1 (some rowC) [backendOne, backendOff] "  "
      (by decide)
  · exact claim_C9_mirror_notifier.2.2.1 rowC [backendOne, backendOff] .tratado ""
      (by decide)

/-- **C10**: every local-store accessor is total and fail-safe: a thrown or
empty read of the status yields `nao_tratado`; a thrown read, an absent key,
or a failed JSON parse of either log yields the empty list; and every save
swallows a thrown write, leaving the store exactly as it was — so no storage
failure can abort a poll cycle or a user action (all accessors are total
functions). -/
theorem claim_C10_storage_fail_safe :
    (loadStatusRaw .thrown = "nao_tratado" ∧
     loadStatusRaw (.ok none) = "nao_tratado") ∧
    (∀ parse, loadCommentListRaw .thrown parse = [] ∧
      loadCommentListRaw (.ok none) parse = []) ∧
    (∀ parse raw, parse raw = .fail →
      loadCommentListRaw (.ok (some raw)) parse = []) ∧
    (∀ parse, loadStatusLogRaw .thrown parse = [] ∧
      loadStatusLogRaw (.ok none) parse = []) ∧
    (∀ parse raw, parse raw = .fail →
      loadStatusLogRaw (.ok (some raw)) parse = []) ∧
    (∀ (kv : KVStore) (gk s : String), saveStatusRaw kv gk s .thrown = kv) ∧
    (∀ (kv : KVStore) (gk : String) ser l,
      saveCommentListRaw kv gk ser l .thrown = kv) ∧
    (∀ (kv : KVStore) (gk : String) ser l,
      saveStatusLogRaw kv gk ser l .thrown = kv) := by
  refine ⟨⟨rfl, rfl⟩, fun parse => ⟨rfl, rfl⟩, ?_, fun parse => ⟨rfl, rfl⟩, ?_,
    fun kv gk s => rfl, fun kv gk ser l => rfl, fun kv gk ser l => rfl⟩
  · intro parse raw h
    by_cases hr : raw = "" <;> simp [loadCommentListRaw, hr, h]
  · intro parse raw h
    by_cases hr : raw = "" <;> simp [loadStatusLogRaw, hr, h]

/-- Witness for C10 at concrete failing reads, parses and writes. -/
theorem claim_C10_witness :
    loadStatusRaw .thrown = "nao_tratado" ∧
    loadCommentListRaw (.ok (some "xx")) (fun _ => .fail) = [] ∧
    loadStatusLogRaw (.ok (some "yy")) (fun _ => .fail) = [] ∧
    saveStatusRaw (fun _ => none) "k" "tratado" .thrown = (fun _ => none) := by
  obtain ⟨h₁, _, h₃, _, h₅, h₆, _, _⟩ := claim_C10_storage_fail_safe
  exact ⟨h₁.1, h₃ (fun _ => .fail) "xx" rfl, h₅ (fun _ => .fail) "yy" rfl,
    h₆ (fun _ => none) "k" "tratado"⟩

end AlarmViewer
